import Mathlib

/-!
Verification of the job-orchestration core of the face-swap service
(`src/main.py`).  The shared mutable state (`tasks` registry, `task_queue`,
`in_process` flag) is embedded as `SysState`; the three threads of control
(the HTTP handlers, the `process_queue` dispatcher loop and the
`process_video_task` worker) become the labelled transition relation `Step`.
The worker body is embedded as a pure function `pipelineEvents` from an
environment of external outcomes (face engine, media toolchain, filesystem)
to the list of shared-state writes it performs, in program order; the
concurrent model replays such a trace one event at a time, which mirrors the
fact that the worker thread holds no lock.
-/

namespace FaceSwap

/-- Faces returned by the insightface detector; their content is never
inspected by the orchestration core, only list emptiness and the selection
of the first element. -/
abbrev Face : Type := Nat

/-- Decoded images (`cv2.imread` results); content opaque to the core. -/
abbrev Img : Type := Nat

/-- Job status strings stored in `tasks[task_id]["status"]`. -/
inductive Status where
  | queued
  | processing
  | completed
  | failed
deriving DecidableEq, Repr

/-- Round-half-even (Python's `round`) of the fraction `a / b`, over `Nat`:
the quotient, bumped when the remainder is over half the divisor, and at an
exact half bumped exactly when the quotient is odd. -/
def rheDiv (a b : Nat) : Nat :=
  if 2 * (a % b) < b then a / b
  else if b < 2 * (a % b) then a / b + 1
  else if a / b % 2 = 0 then a / b else a / b + 1

/-- The progress value the frame loop stores for frame index `i` out of
`total`: `round((i + 1) / total_frames * 100, 1)`.  Progress is modelled in
exact tenths of a percent (`1000` = `100.0`), so this is the round-half-even
of `(i + 1) * 1000 / total`; the one-decimal float the source stores is
this integer divided by ten. -/
def progressTenths (total i : Nat) : Nat :=
  rheDiv ((i + 1) * 1000) total

/-- One observable action of the worker thread (`process_video_task`), in
the order the Python statements execute.  Record fields written without any
lock are separate events, since a concurrent reader can observe the state
between any two of them. -/
inductive WEvent where
  | setBusy                          -- `in_process = True`
  | clearBusy                        -- `in_process = False`
  | setMessage (m : String)          -- `task_info["message"] = m`
  | loadTarget                       -- `cv2.imread(target)`+`face_detector.get`
  | createTemp                       -- `create_temp(source_path)`
  | extractFrames                    -- `extract_frames(source_path)`
  | writeFrame (i : Nat) (swapped : Bool)  -- `cv2.imwrite(frame_path, frame)`
  | setProgress (p : Nat)            -- `task_info["progress"] = round(..., 1)`
  | detectFps                        -- `detect_fps(source_path)`
  | createVideo                      -- `create_video(source_path, fps)`
  | restoreAudio                     -- `restore_audio(source_path, output_path)`
  | cleanTemp                        -- `clean_temp(source_path)`
  | complete                         -- `task_info.update({"status": "completed", ...})`
  | fail (msg : String)              -- `task_info.update({"status": "failed", ...})`
  | setDuration                      -- `task_info["duration"] = ...` in the handler
deriving DecidableEq, Repr

/-- External outcomes for one frame of the source video: the `cv2.imread`
result and the faces the detector finds in it. -/
structure FrameData where
  decoded : Option Img
  faces : List Face
deriving DecidableEq, Repr

/-- External-world outcomes consumed by one run of `process_video_task`.
The face engine is total (spec: returns zero or more faces / a transformed
frame); each media-toolchain call is pass/fail with error text (spec:
"opaque external processes/libraries with pass/fail + error text
outcomes"). -/
structure PipelineEnv where
  targetFacePath : String            -- used in the read-failure message
  targetImg : Option Img             -- `cv2.imread(target_face_path)`
  targetFaces : List Face            -- `face_detector.get(target_img)`
  extractErr : Option String         -- `extract_frames` raising
  frames : List FrameData            -- `get_temp_frame_paths` results, in order
  fpsErr : Option String             -- `detect_fps` raising
  createVideoErr : Option String     -- `create_video` raising
  restoreAudioErr : Option String    -- `restore_audio` raising
deriving DecidableEq, Repr

/-- The per-frame loop of `process_video_task` (`for i, frame_path in
enumerate(frame_paths)`): an undecodable frame is skipped entirely
(`continue`), a decodable one is written back (swapped when the detector
finds a face) and then the progress is stored. -/
def frameLoop (total i : Nat) : List FrameData → List WEvent
  | [] => []
  | f :: rest =>
    (match f.decoded with
     | none => []
     | some _ =>
       [WEvent.writeFrame i (!f.faces.isEmpty),
        WEvent.setProgress (progressTenths total i)]) ++ frameLoop total (i + 1) rest

/-- The `try:` block of `process_video_task`: the events it emits before
either falling off the end (`none`) or raising `ValueError`/a toolchain
exception whose text is returned (`some msg`).  The trailing
`clean_temp` + completed-update of the success path and the whole `except`
handler are appended by `pipelineEvents`. -/
def tryBody (env : PipelineEnv) : List WEvent × Option String :=
  let pre := [WEvent.setBusy, WEvent.setMessage "Initializing processing",
              WEvent.loadTarget]
  match env.targetImg with
  | none => (pre, some ("Failed to read target image: " ++ env.targetFacePath))
  | some _ =>
    if env.targetFaces.isEmpty then
      (pre, some "No faces detected in target image")
    else
      let e1 := pre ++ [WEvent.createTemp, WEvent.setMessage "Extracting frames",
                        WEvent.extractFrames]
      match env.extractErr with
      | some m => (e1, some m)
      | none =>
        if env.frames.length = 0 then
          (e1, some "No frames extracted from video")
        else
          let e2 := e1 ++ [WEvent.setMessage "Processing frames"] ++
                    frameLoop env.frames.length 0 env.frames
          let e3 := e2 ++ [WEvent.setMessage "Creating video", WEvent.detectFps]
          match env.fpsErr with
          | some m => (e3, some m)
          | none =>
            let e4 := e3 ++ [WEvent.createVideo]
            match env.createVideoErr with
            | some m => (e4, some m)
            | none =>
              let e5 := e4 ++ [WEvent.setMessage "Restoring audio",
                               WEvent.restoreAudio]
              match env.restoreAudioErr with
              | some m => (e5, some m)
              | none => (e5, none)

/-- The full event trace of one `process_video_task` run.  Success ends with
`clean_temp`, the completed-update and `in_process = False`; an exception is
caught by the handler, which records the failed-update (status, message,
end time), then the duration, then `clean_temp`, then `in_process = False`
— in that source order. -/
def pipelineEvents (env : PipelineEnv) : List WEvent :=
  match tryBody env with
  | (evts, none) => evts ++ [WEvent.cleanTemp, WEvent.complete, WEvent.clearBusy]
  | (evts, some m) =>
      evts ++ [WEvent.fail ("Error: " ++ m), WEvent.setDuration,
               WEvent.cleanTemp, WEvent.clearBusy]

/-- Terminal-status writes of the worker. -/
def isTerminal : WEvent → Bool
  | WEvent.complete => true
  | WEvent.fail _ => true
  | _ => false

/-- The sequence of values stored into `task_info["progress"]` by a trace
(the completed-update stores the literal `100`, i.e. `1000` tenths). -/
def progressWrites (evts : List WEvent) : List Nat :=
  evts.filterMap fun e =>
    match e with
    | WEvent.setProgress p => some p
    | WEvent.complete => some 1000
    | _ => none

/-- Indices of the frames the loop actually processes (those whose
`cv2.imread` succeeds), in loop order. -/
def decodedIdxs (i : Nat) : List FrameData → List Nat
  | [] => []
  | f :: rest =>
    (if f.decoded.isSome then [i] else []) ++ decodedIdxs (i + 1) rest

/-- One record of the `tasks` dict.  Timestamps are a logical clock (the
model ticks once per transition); `message` is modelled as `""` when the
key is absent, matching `task.get("message", "")` in `get_status`.  The
initial dict has no `start_time`/`end_time`/`duration` keys, hence the
`Option` fields. -/
structure TaskRec where
  status : Status
  progress : Nat
  message : String
  sourcePath : String
  outputPath : String
  targetFacePath : String
  createdAt : Nat
  startTime : Option Nat
  endTime : Option Nat
  duration : Option Nat
deriving DecidableEq, Repr

/-- One element of `task_queue`: the dict put by `process_video`. -/
structure QEntry where
  taskId : Nat
  sourcePath : String
  outputPath : String
  targetFacePath : String
deriving DecidableEq, Repr

/-- A running `process_video_task` thread: the job it is bound to, the
external-outcome environment of its run, the events it has already
performed and those still pending (`done ++ events` is the whole trace). -/
structure Worker where
  taskId : Nat
  env : PipelineEnv
  done : List WEvent
  events : List WEvent
deriving DecidableEq, Repr

/-- The shared mutable state of `main.py`: the `tasks` registry (an
association list keyed by task id; `uuid4` ids are modelled by the fresh
counter `nextId`), the FIFO `task_queue`, the `in_process` flag, the live
worker threads, and a logical clock standing in for `datetime.now()`. -/
structure SysState where
  tasks : List (Nat × TaskRec)
  queue : List QEntry
  inProcess : Bool
  workers : List Worker
  nextId : Nat
  now : Nat
deriving DecidableEq, Repr

/-- The empty state at startup. -/
def initState : SysState :=
  { tasks := [], queue := [], inProcess := false, workers := [], nextId := 0,
    now := 0 }

/-- Filesystem/validation oracle for `process_video`.  `pathExists` is
`os.path.exists`; `isVideo` and `hasImageExtension` are
`utils.is_video` / `utils.has_image_extension`.  Modelled from the spec:
the `utils` module is not part of the sources; the spec describes these as
"source not a recognized video" / "target not a recognized image
extension" predicates, so they are abstract boolean tests on the path. -/
structure FS where
  pathExists : String → Bool
  isVideo : String → Bool
  hasImageExtension : String → Bool

/-- An `HTTPException(code, detail)`. -/
structure HErr where
  code : Nat
  detail : String
deriving DecidableEq, Repr

/-- The JSON body returned by `POST /process`. -/
structure SubmitResp where
  taskId : Nat
  status : String
  queuePosition : Nat
  timestamp : Nat
deriving DecidableEq, Repr

/-- The JSON body returned by `GET /status/{task_id}`; `queuePosition`
is `none` when the `queue_position` key is absent from the response. -/
structure StatusResp where
  status : Status
  progress : Nat
  message : String
  outputPath : String
  createdAt : Nat
  startTime : Option Nat
  duration : Option Nat
  queuePosition : Option Nat
deriving DecidableEq, Repr

/-- `tasks.get(tid)` on the association list. -/
def lookupTask : List (Nat × TaskRec) → Nat → Option TaskRec
  | [], _ => none
  | (k, r) :: rest, tid => if k = tid then some r else lookupTask rest tid

/-- In-place mutation of the record stored under `tid`. -/
def updateTask (ts : List (Nat × TaskRec)) (tid : Nat) (f : TaskRec → TaskRec) :
    List (Nat × TaskRec) :=
  ts.map fun p => if p.1 = tid then (p.1, f p.2) else p

/-- The status stored for `tid`, if the id is known. -/
def statusOf (s : SysState) (tid : Nat) : Option Status :=
  (lookupTask s.tasks tid).map TaskRec.status

/-- Effect of one worker event on the task record it mutates, at logical
time `now`.  `complete` is the single `task_info.update({...})` dict call
of the success path; `fail` is the `update` of the `except` handler (which
does not set `duration` — that is the separate following statement,
`setDuration`, executed only `if "start_time" in task_info`).  The
completed-update recomputes `duration` from `start_time`; the dispatcher
always sets `start_time` before any worker event, so the `getD 0` default
is never observed in reachable states. -/
def applyRec (now : Nat) (e : WEvent) (r : TaskRec) : TaskRec :=
  match e with
  | WEvent.setMessage m => { r with message := m }
  | WEvent.setProgress p => { r with progress := p }
  | WEvent.complete =>
      { r with status := Status.completed, progress := 1000,
               message := "Video processing completed",
               outputPath := r.outputPath, endTime := some now,
               duration := some (now - r.startTime.getD 0) }
  | WEvent.fail m =>
      { r with status := Status.failed, message := m, endTime := some now }
  | WEvent.setDuration =>
      match r.startTime with
      | some t => { r with duration := some (now - t) }
      | none => r
  | _ => r

/-- Effect of one worker event on the `in_process` flag. -/
def applyBusy (e : WEvent) (b : Bool) : Bool :=
  match e with
  | WEvent.setBusy => true
  | WEvent.clearBusy => false
  | _ => b

/-- The record created by `process_video` (status `"queued"`, progress 0,
the three paths, `created_at`; no `message`/`start_time`/... keys). -/
def initRec (src out tgt : String) (t : Nat) : TaskRec :=
  { status := Status.queued, progress := 0, message := "",
    sourcePath := src, outputPath := out, targetFacePath := tgt,
    createdAt := t, startTime := none, endTime := none, duration := none }

/-- The locked section of `process_video` after validation: register the
job and append it to the queue. -/
def submitEffect (s : SysState) (src out tgt : String) : SysState :=
  { s with tasks := s.tasks ++ [(s.nextId, initRec src out tgt s.now)],
           queue := s.queue ++ [⟨s.nextId, src, out, tgt⟩],
           nextId := s.nextId + 1, now := s.now + 1 }

/-- `POST /process`: the four validation checks in source order, each a
`400`; only after all pass is the job registered and enqueued.  The
response's `queue_position` is `task_queue.qsize()` after the put. -/
def processVideo (fs : FS) (s : SysState) (src out tgt : String) :
    Except HErr SubmitResp × SysState :=
  if !fs.pathExists src then
    (Except.error ⟨400, "Source video not found"⟩, s)
  else if !fs.isVideo src then
    (Except.error ⟨400, "Source path is not a video file"⟩, s)
  else if !fs.pathExists tgt then
    (Except.error ⟨400, "Target face image not found"⟩, s)
  else if !fs.hasImageExtension tgt then
    (Except.error ⟨400, "Target face path is not a valid image"⟩, s)
  else
    let s2 := submitEffect s src out tgt
    (Except.ok { taskId := s.nextId, status := "queued",
                 queuePosition := s2.queue.length, timestamp := s.now }, s2)

/-- The scan `for i, item in enumerate(queue_list): if item["task_id"] ==
task_id: position = i + 1; break`, with `n` the number of entries already
passed. -/
def queueRank : List QEntry → Nat → Nat → Option Nat
  | [], _, _ => none
  | e :: rest, tid, n =>
    if e.taskId = tid then some (n + 1) else queueRank rest tid (n + 1)

/-- `GET /status/{task_id}`: `404` for an unknown id, otherwise a snapshot
of the record, with `queue_position` added only when the status is
`"queued"` (and the id is found in the queue list). -/
def getStatus (s : SysState) (tid : Nat) : Except HErr StatusResp × SysState :=
  match lookupTask s.tasks tid with
  | none => (Except.error ⟨404, "Task not found"⟩, s)
  | some t =>
    let base : StatusResp :=
      { status := t.status, progress := t.progress, message := t.message,
        outputPath := t.outputPath, createdAt := t.createdAt,
        startTime := t.startTime, duration := t.duration,
        queuePosition := none }
    if t.status = Status.queued then
      (Except.ok { base with queuePosition := queueRank s.queue tid 0 }, s)
    else
      (Except.ok base, s)

/-- The locked body of one `process_queue` iteration when the guard
`not task_queue.empty() and not in_process` holds: pop the head entry, mark
it `"processing"` with its `start_time`, and start the worker thread.  All
of this happens under `queue_lock`, hence one atomic step.  Note the
dispatcher does not touch `in_process`; the worker's first statement sets
it. -/
def dispatchEffect (s : SysState) (e : QEntry) (rest : List QEntry)
    (env : PipelineEnv) : SysState :=
  { s with queue := rest,
           tasks := updateTask s.tasks e.taskId fun r =>
             { r with status := Status.processing, startTime := some s.now },
           workers := s.workers ++
             [{ taskId := e.taskId, env := env, done := [],
                events := pipelineEvents env }],
           now := s.now + 1 }

/-- One statement of a running worker thread: perform its next event.  The
thread exits when its trace is exhausted. -/
def workerEffect (s : SysState) (pre post : List Worker) (w : Worker)
    (e : WEvent) (tl : List WEvent) : SysState :=
  { s with tasks := updateTask s.tasks w.taskId (applyRec s.now e),
           inProcess := applyBusy e s.inProcess,
           workers := pre ++
             (if tl.isEmpty then post
              else { w with done := w.done ++ [e], events := tl } :: post),
           now := s.now + 1 }

/-- Labels identifying which thread performed a transition. -/
inductive Label where
  | submit (src out tgt : String)
  | dispatch (tid : Nat) (env : PipelineEnv)
  | workerStep (tid : Nat)

/-- The interleaving semantics: a submission that passes validation, one
guarded dispatcher iteration, or one statement of a worker thread. -/
inductive Step (fs : FS) : SysState → Label → SysState → Prop
  | submit (s : SysState) (src out tgt : String)
      (h1 : fs.pathExists src = true) (h2 : fs.isVideo src = true)
      (h3 : fs.pathExists tgt = true) (h4 : fs.hasImageExtension tgt = true) :
      Step fs s (Label.submit src out tgt) (submitEffect s src out tgt)
  | dispatch (s : SysState) (e : QEntry) (rest : List QEntry)
      (env : PipelineEnv)
      (hq : s.queue = e :: rest) (hip : s.inProcess = false)
      (henv : env.targetFacePath = e.targetFacePath) :
      Step fs s (Label.dispatch e.taskId env) (dispatchEffect s e rest env)
  | worker (s : SysState) (pre post : List Worker) (w : Worker)
      (e : WEvent) (tl : List WEvent)
      (hw : s.workers = pre ++ w :: post) (he : w.events = e :: tl) :
      Step fs s (Label.workerStep w.taskId) (workerEffect s pre post w e tl)

/-- States reachable from startup. -/
inductive Reachable (fs : FS) : SysState → Prop
  | init : Reachable fs initState
  | step {s ℓ s₂} : Reachable fs s → Step fs s ℓ s₂ → Reachable fs s₂

/-! ### Arithmetic facts about the rounded progress values -/

theorem rheDiv_cases (a b : Nat) : rheDiv a b = a / b ∨ rheDiv a b = a / b + 1 := by
  unfold rheDiv
  split_ifs <;> simp

theorem rheDiv_mono {a a₂ : Nat} (b : Nat) (h : a ≤ a₂) :
    rheDiv a b ≤ rheDiv a₂ b := by
  rcases Nat.lt_or_ge (a / b) (a₂ / b) with hq | hq
  · rcases rheDiv_cases a b with h1 | h1 <;> rcases rheDiv_cases a₂ b with h2 | h2 <;>
      omega
  · have hq2 : a / b ≤ a₂ / b := Nat.div_le_div_right h
    have hq3 : a / b = a₂ / b := le_antisymm hq2 hq
    have hmod : a % b ≤ a₂ % b := by
      have h1 := Nat.div_add_mod a b
      have h2 := Nat.div_add_mod a₂ b
      rw [hq3] at h1
      omega
    unfold rheDiv
    rw [hq3]
    split_ifs <;> omega

theorem rheDiv_le {a b c : Nat} (h : a ≤ c * b) : rheDiv a b ≤ c := by
  rcases Nat.eq_zero_or_pos b with hb | hb
  · subst hb
    rw [Nat.mul_zero] at h
    rw [Nat.le_zero] at h
    subst h
    exact Nat.zero_le c
  · have hq : a / b ≤ c := by
      have h1 : a / b ≤ c * b / b := Nat.div_le_div_right h
      rwa [Nat.mul_div_cancel c hb] at h1
    have hdm := Nat.div_add_mod a b
    have hmod : a % b < b := Nat.mod_lt _ hb
    have hcb : b * c = c * b := Nat.mul_comm b c
    unfold rheDiv
    split_ifs with h1 h2 h3
    · exact hq
    · rcases Nat.lt_or_ge (a / b) c with hlt | hge
      · omega
      · have heq : a / b = c := le_antisymm hq hge
        rw [heq] at hdm
        omega
    · exact hq
    · rcases Nat.lt_or_ge (a / b) c with hlt | hge
      · omega
      · have heq : a / b = c := le_antisymm hq hge
        rw [heq] at hdm
        omega

theorem progressTenths_mono (total : Nat) {i j : Nat} (h : i ≤ j) :
    progressTenths total i ≤ progressTenths total j := by
  exact rheDiv_mono total (by omega : (i + 1) * 1000 ≤ (j + 1) * 1000)

theorem progressTenths_le {total i : Nat} (h : i < total) :
    progressTenths total i ≤ 1000 := by
  refine rheDiv_le ?_
  calc (i + 1) * 1000 ≤ total * 1000 := Nat.mul_le_mul_right 1000 (by omega)
    _ = 1000 * total := Nat.mul_comm total 1000

/-! ### Shape of the worker trace -/

/-- No terminal-status write occurs in a list of events. -/
def noTerminal (l : List WEvent) : Prop :=
  ∀ e ∈ l, isTerminal e = false

theorem frameLoop_noTerminal (t : Nat) :
    ∀ (l : List FrameData) (i : Nat), noTerminal (frameLoop t i l) := by
  intro l
  induction l with
  | nil => intro i e he; simp [frameLoop] at he
  | cons f rest ih =>
    intro i e he
    rcases hfd : f.decoded with _ | v <;> rw [frameLoop, hfd] at he
    · exact ih (i + 1) e he
    · simp only [List.cons_append, List.nil_append, List.mem_cons] at he
      rcases he with rfl | rfl | he
      · rfl
      · rfl
      · exact ih (i + 1) e he

theorem noTerminal_nil : noTerminal [] := by
  intro e he
  simp at he

theorem noTerminal_append_iff {l₁ l₂ : List WEvent} :
    noTerminal (l₁ ++ l₂) ↔ noTerminal l₁ ∧ noTerminal l₂ := by
  constructor
  · intro h
    exact ⟨fun e he => h e (List.mem_append.mpr (Or.inl he)),
           fun e he => h e (List.mem_append.mpr (Or.inr he))⟩
  · rintro ⟨h₁, h₂⟩ e he
    rcases List.mem_append.mp he with h | h
    · exact h₁ e h
    · exact h₂ e h

theorem noTerminal_cons_iff {e : WEvent} {l : List WEvent} :
    noTerminal (e :: l) ↔ isTerminal e = false ∧ noTerminal l := by
  constructor
  · intro h
    exact ⟨h e (List.mem_cons_self e l), fun x hx => h x (List.mem_cons_of_mem e hx)⟩
  · rintro ⟨h₁, h₂⟩ x hx
    rcases List.mem_cons.mp hx with rfl | hx
    · exact h₁
    · exact h₂ x hx

theorem tryBody_noTerminal (env : PipelineEnv) : noTerminal (tryBody env).1 := by
  rcases env with ⟨tfp, timg, tfaces, eerr, frames, fpserr, cverr, raerr⟩
  simp only [tryBody]
  repeat' split
  all_goals try dsimp only
  all_goals
    simp [noTerminal_append_iff, noTerminal_cons_iff, noTerminal_nil,
      frameLoop_noTerminal, isTerminal]

/-- The worker trace is the try-block prefix followed by one of the two
closing sequences: `clean_temp; completed-update; in_process = False` on
success, or `failed-update; duration; clean_temp; in_process = False` from
the `except` handler. -/
theorem pipelineEvents_shape (env : PipelineEnv) :
    ((tryBody env).2 = none ∧
      pipelineEvents env = (tryBody env).1 ++
        [WEvent.cleanTemp, WEvent.complete, WEvent.clearBusy]) ∨
    (∃ m, (tryBody env).2 = some m ∧
      pipelineEvents env = (tryBody env).1 ++
        [WEvent.fail ("Error: " ++ m), WEvent.setDuration, WEvent.cleanTemp,
         WEvent.clearBusy]) := by
  unfold pipelineEvents
  rcases htb : tryBody env with ⟨evts, _ | m⟩
  · left
    simp [htb]
  · right
    exact ⟨m, by simp [htb], by simp [htb]⟩

theorem pw_nil : progressWrites [] = [] := rfl

theorem pw_append (l₁ l₂ : List WEvent) :
    progressWrites (l₁ ++ l₂) = progressWrites l₁ ++ progressWrites l₂ :=
  List.filterMap_append l₁ l₂ _

theorem pw_cons (e : WEvent) (l : List WEvent) :
    progressWrites (e :: l) =
      (match e with
       | WEvent.setProgress p => [p]
       | WEvent.complete => [1000]
       | _ => []) ++ progressWrites l := by
  cases e <;> rfl

theorem frameLoop_pw (t : Nat) : ∀ (l : List FrameData) (i : Nat),
    progressWrites (frameLoop t i l) =
      (decodedIdxs i l).map (progressTenths t) := by
  intro l
  induction l with
  | nil => intro i; rfl
  | cons f rest ih =>
    intro i
    rcases hfd : f.decoded with _ | v <;>
      rw [frameLoop, hfd, decodedIdxs] <;> simp [hfd, pw_append, pw_cons, ih]

theorem decodedIdxs_mem_bounds :
    ∀ (l : List FrameData) (i j : Nat), j ∈ decodedIdxs i l →
      i ≤ j ∧ j < i + l.length := by
  intro l
  induction l with
  | nil => intro i j hj; simp [decodedIdxs] at hj
  | cons f rest ih =>
    intro i j hj
    rw [decodedIdxs] at hj
    rcases List.mem_append.mp hj with hj | hj
    · split_ifs at hj with hd
      · have hji : j = i := by simpa using hj
        subst hji
        simp only [List.length_cons]
        omega
      · exact absurd hj (by simp)
    · have := ih (i + 1) j hj
      simp only [List.length_cons]
      omega

theorem decodedIdxs_mem_decoded :
    ∀ (l : List FrameData) (i j : Nat), j ∈ decodedIdxs i l →
      ∃ f, l.get? (j - i) = some f ∧ f.decoded.isSome = true := by
  intro l
  induction l with
  | nil => intro i j hj; simp [decodedIdxs] at hj
  | cons f rest ih =>
    intro i j hj
    rw [decodedIdxs] at hj
    rcases List.mem_append.mp hj with hj | hj
    · split_ifs at hj with hd <;> simp at hj
      subst hj
      exact ⟨f, by simp, hd⟩
    · obtain ⟨g, hg, hgd⟩ := ih (i + 1) j hj
      have hij : i + 1 ≤ j := (decodedIdxs_mem_bounds rest (i + 1) j hj).1
      refine ⟨g, ?_, hgd⟩
      have : j - i = (j - (i + 1)) + 1 := by omega
      rw [this]
      simpa using hg

theorem decodedIdxs_chain :
    ∀ (l : List FrameData) (i : Nat), List.Chain' (· < ·) (decodedIdxs i l) := by
  intro l
  induction l with
  | nil => intro i; simp [decodedIdxs]
  | cons f rest ih =>
    intro i
    rw [decodedIdxs]
    split_ifs with hd
    · refine List.chain'_cons'.mpr ⟨?_, ih (i + 1)⟩
      intro y hy
      have hmem : y ∈ decodedIdxs (i + 1) rest := List.mem_of_mem_head? hy
      have := decodedIdxs_mem_bounds rest (i + 1) y hmem
      omega
    · simpa using ih (i + 1)

/-- In every branch of the try block the stored progress values are exactly
those of the frame loop. -/
theorem pw_tryBody (env : PipelineEnv) :
    progressWrites (tryBody env).1 = [] ∨
    progressWrites (tryBody env).1 =
      (decodedIdxs 0 env.frames).map (progressTenths env.frames.length) := by
  rcases env with ⟨tfp, timg, tfaces, eerr, frames, fpserr, cverr, raerr⟩
  simp only [tryBody]
  repeat' split
  all_goals try dsimp only
  all_goals simp [pw_append, pw_cons, pw_nil, frameLoop_pw]

theorem pw_tryBody_success (env : PipelineEnv)
    (h : (tryBody env).2 = none) :
    progressWrites (tryBody env).1 =
      (decodedIdxs 0 env.frames).map (progressTenths env.frames.length) := by
  rcases env with ⟨tfp, timg, tfaces, eerr, frames, fpserr, cverr, raerr⟩
  simp only [tryBody] at h ⊢
  repeat' split
  all_goals try dsimp only
  all_goals simp_all
  all_goals simp [pw_append, pw_cons, pw_nil, frameLoop_pw]

theorem chain_map_progressTenths (l : List FrameData) :
    List.Chain' (· ≤ ·) ((decodedIdxs 0 l).map (progressTenths l.length)) := by
  refine (List.chain'_map _).mpr ?_
  refine (decodedIdxs_chain l 0).imp ?_
  intro a b hab
  exact progressTenths_mono l.length (Nat.le_of_lt hab)

/-- C2 core: the sequence of progress writes of any worker run is
non-decreasing. -/
theorem chain_pw (env : PipelineEnv) :
    List.Chain' (· ≤ ·) (progressWrites (pipelineEvents env)) := by
  rcases pipelineEvents_shape env with ⟨hnone, heq⟩ | ⟨m, hsome, heq⟩ <;>
    rw [heq, pw_append]
  · have hclose : progressWrites
        [WEvent.cleanTemp, WEvent.complete, WEvent.clearBusy] = [1000] := rfl
    rw [hclose, pw_tryBody_success env hnone]
    refine List.chain'_append.mpr
      ⟨chain_map_progressTenths env.frames, by simp, ?_⟩
    intro x hx y hy
    have hxm : x ∈ (decodedIdxs 0 env.frames).map
        (progressTenths env.frames.length) := by
      obtain ⟨hne, rfl⟩ := List.mem_getLast?_eq_getLast hx
      exact List.getLast_mem hne
    obtain ⟨j, hj, rfl⟩ := List.mem_map.mp hxm
    have hjb := decodedIdxs_mem_bounds env.frames 0 j hj
    have hy1000 : 1000 = y := by simpa using hy
    subst hy1000
    exact progressTenths_le (by omega)
  · have hclose : progressWrites
        [WEvent.fail ("Error: " ++ m), WEvent.setDuration, WEvent.cleanTemp,
         WEvent.clearBusy] = [] := rfl
    rw [hclose, List.append_nil]
    rcases pw_tryBody env with h | h <;> rw [h]
    · simp
    · exact chain_map_progressTenths env.frames

/-! ### The record a worker run leaves behind -/

/-- Replay a list of worker events against one task record.  The logical
time argument of `applyRec` only feeds the `end_time`/`duration`
bookkeeping, which no claim constrains, so the replay fixes it at `0`. -/
def runRec (evts : List WEvent) (r : TaskRec) : TaskRec :=
  evts.foldl (fun acc e => applyRec 0 e acc) r

/-- The record after a full (uninterrupted) run of `process_video_task`
over the record the dispatcher marked `"processing"`. -/
def finalRec (env : PipelineEnv) (r : TaskRec) : TaskRec :=
  runRec (pipelineEvents env) r

theorem runRec_append (l₁ l₂ : List WEvent) (r : TaskRec) :
    runRec (l₁ ++ l₂) r = runRec l₂ (runRec l₁ r) :=
  List.foldl_append _ _ l₁ l₂

theorem getLast?_getD_cons {α : Type} (a : α) (l : List α) :
    ∀ d, ((a :: l).getLast?).getD d = (l.getLast?).getD a := by
  induction l generalizing a with
  | nil => intro d; rfl
  | cons b bs ih => intro d; rw [List.getLast?_cons_cons, ih b d, ih b a]

/-- The progress field after a replay is the last progress write, or the
prior value when the trace writes none. -/
theorem runRec_progress :
    ∀ (l : List WEvent) (r : TaskRec),
      (runRec l r).progress = ((progressWrites l).getLast?).getD r.progress := by
  intro l
  induction l with
  | nil => intro r; rfl
  | cons e rest ih =>
    intro r
    have hstep : runRec (e :: rest) r = runRec rest (applyRec 0 e r) := rfl
    rw [hstep, pw_cons, ih]
    cases e <;>
      simp only [applyRec, List.nil_append, List.cons_append] <;>
      try rw [getLast?_getD_cons]
    case setDuration => cases hr : r.startTime <;> rfl

/-- A successful run leaves the completed record: status `"completed"`,
progress `100` (1000 tenths), the completion message. -/
theorem finalRec_success (env : PipelineEnv) (r : TaskRec)
    (h : (tryBody env).2 = none) :
    (finalRec env r).status = Status.completed ∧
    (finalRec env r).progress = 1000 ∧
    (finalRec env r).message = "Video processing completed" := by
  rcases pipelineEvents_shape env with ⟨_, heq⟩ | ⟨m, hsome, _⟩
  · rw [finalRec, heq, runRec_append]
    simp [runRec, applyRec]
  · rw [h] at hsome
    exact absurd hsome (by simp)

/-- A failing run leaves the failed record: status `"failed"`, message
`"Error: " ++ detail`, and the progress field untouched by the handler. -/
theorem finalRec_failed (env : PipelineEnv) (r : TaskRec) (m : String)
    (h : (tryBody env).2 = some m) :
    (finalRec env r).status = Status.failed ∧
    (finalRec env r).message = "Error: " ++ m ∧
    (finalRec env r).progress = (runRec (tryBody env).1 r).progress := by
  rcases pipelineEvents_shape env with ⟨hnone, _⟩ | ⟨m₂, hsome, heq⟩
  · rw [h] at hnone
    exact absurd hnone (by simp)
  · rw [h] at hsome
    have hm : m₂ = m := by simpa using hsome.symm
    subst hm
    rw [finalRec, heq, runRec_append]
    set r₂ := runRec (tryBody env).1 r with hr₂
    refine ⟨?_, ?_, ?_⟩ <;>
      simp only [runRec, List.foldl_cons, List.foldl_nil, applyRec] <;>
      cases h2 : r₂.startTime <;> simp

/-! ### Error classification (C6) -/

/-- Modelled from the spec: the stable error classification of §7 that a
failed job's record carries.  The source stores only the formatted message
string `"Error: " ++ detail`; the fixed detail text per cause is the
classification, recovered here from the message. -/
inductive ErrKind where
  | noFaceDetected
  | emptySource
  | other (detail : String)
deriving DecidableEq, Repr

/-- Modelled from the spec: recover the §7 error kind from the stable
message a failed record carries. -/
def errorKindOfMessage (msg : String) : ErrKind :=
  if msg = "Error: No faces detected in target image" then ErrKind.noFaceDetected
  else if msg = "Error: No frames extracted from video" then ErrKind.emptySource
  else ErrKind.other msg

/-! ### Registry lookup/update lemmas -/

theorem lookupTask_append (ts₁ ts₂ : List (Nat × TaskRec)) (tid : Nat) :
    lookupTask (ts₁ ++ ts₂) tid =
      match lookupTask ts₁ tid with
      | some r => some r
      | none => lookupTask ts₂ tid := by
  induction ts₁ with
  | nil => rfl
  | cons p rest ih =>
    rcases p with ⟨k, r⟩
    by_cases hk : k = tid <;> simp [lookupTask, hk, ih]

theorem lookupTask_cons (p : Nat × TaskRec) (rest : List (Nat × TaskRec))
    (tid : Nat) :
    lookupTask (p :: rest) tid =
      if p.1 = tid then some p.2 else lookupTask rest tid := by
  rcases p with ⟨k, r⟩
  rfl

theorem updateTask_cons (k : Nat) (r : TaskRec) (rest : List (Nat × TaskRec))
    (tid : Nat) (f : TaskRec → TaskRec) :
    updateTask ((k, r) :: rest) tid f =
      (if k = tid then (k, f r) else (k, r)) :: updateTask rest tid f := rfl

theorem lookupTask_update (ts : List (Nat × TaskRec)) (tid tid₂ : Nat)
    (f : TaskRec → TaskRec) :
    lookupTask (updateTask ts tid f) tid₂ =
      if tid₂ = tid then (lookupTask ts tid₂).map f else lookupTask ts tid₂ := by
  induction ts with
  | nil => simp [updateTask, lookupTask]
  | cons p rest ih =>
    rcases p with ⟨k, r⟩
    simp only [updateTask_cons, lookupTask_cons]
    by_cases hk : k = tid <;> by_cases h2 : k = tid₂
    · subst hk
      subst h2
      simp [ih]
    · subst hk
      simp [h2, Ne.symm h2, ih]
    · subst h2
      simp [hk, Ne.symm hk, ih]
    · simp [hk, h2, ih]

theorem lookupTask_mem {ts : List (Nat × TaskRec)} {tid : Nat} {r : TaskRec}
    (h : lookupTask ts tid = some r) : (tid, r) ∈ ts := by
  induction ts with
  | nil => simp [lookupTask] at h
  | cons p rest ih =>
    rcases p with ⟨k, r₂⟩
    rw [lookupTask] at h
    split_ifs at h with hk
    · subst hk
      obtain rfl : r₂ = r := by simpa using h
      exact List.mem_cons_self _ _
    · exact List.mem_cons_of_mem _ (ih h)

theorem updateTask_keys (ts : List (Nat × TaskRec)) (tid : Nat)
    (f : TaskRec → TaskRec) :
    (updateTask ts tid f).map Prod.fst = ts.map Prod.fst := by
  induction ts with
  | nil => rfl
  | cons p rest ih =>
    rcases p with ⟨k, r⟩
    by_cases hk : k = tid <;> simp [updateTask, hk] <;>
      simpa [updateTask] using ih

theorem updateTask_mem_key {ts : List (Nat × TaskRec)} {tid : Nat}
    {f : TaskRec → TaskRec} {p : Nat × TaskRec}
    (h : p ∈ updateTask ts tid f) : ∃ q ∈ ts, p.1 = q.1 := by
  obtain ⟨q, hq, hpq⟩ := List.mem_map.mp h
  refine ⟨q, hq, ?_⟩
  split at hpq <;> rw [← hpq]

/-! ### The status determined by the consumed trace prefix -/

/-- The status field of a worker's task as a function of the events the
worker has already performed (it starts at `"processing"`, set by the
dispatcher). -/
def statusAfterEvents (l : List WEvent) : Status :=
  l.foldl
    (fun st e =>
      match e with
      | WEvent.complete => Status.completed
      | WEvent.fail _ => Status.failed
      | _ => st) Status.processing

theorem sae_fold_ne_queued :
    ∀ (l : List WEvent) (st : Status), st ≠ Status.queued →
      l.foldl
        (fun st e =>
          match e with
          | WEvent.complete => Status.completed
          | WEvent.fail _ => Status.failed
          | _ => st) st ≠ Status.queued := by
  intro l
  induction l with
  | nil => intro st h; exact h
  | cons e rest ih =>
    intro st h
    cases e <;>
      first
        | exact ih _ h
        | exact ih _ (by simp)

theorem sAE_ne_queued (l : List WEvent) :
    statusAfterEvents l ≠ Status.queued := by
  cases l with
  | nil => simp [statusAfterEvents]
  | cons e rest => exact sae_fold_ne_queued _ _ (by simp)

theorem sAE_append_single (l : List WEvent) (e : WEvent) :
    statusAfterEvents (l ++ [e]) =
      match e with
      | WEvent.complete => Status.completed
      | WEvent.fail _ => Status.failed
      | _ => statusAfterEvents l := by
  unfold statusAfterEvents
  rw [List.foldl_append]
  cases e <;> rfl

theorem sae_fold_processing :
    ∀ (l : List WEvent) (st : Status),
      l.foldl
        (fun st e =>
          match e with
          | WEvent.complete => Status.completed
          | WEvent.fail _ => Status.failed
          | _ => st) st = Status.processing →
      noTerminal l ∧ st = Status.processing := by
  intro l
  induction l with
  | nil => intro st h; exact ⟨noTerminal_nil, h⟩
  | cons e rest ih =>
    intro st h
    cases e
    case complete =>
      obtain ⟨h1, h2⟩ := ih _ h
      exact absurd h2 (by simp)
    case fail m =>
      obtain ⟨h1, h2⟩ := ih _ h
      exact absurd h2 (by simp)
    all_goals
      obtain ⟨h1, h2⟩ := ih _ h
    all_goals
      exact ⟨noTerminal_cons_iff.mpr ⟨rfl, h1⟩, h2⟩

theorem noTerminal_of_sAE_processing {l : List WEvent}
    (h : statusAfterEvents l = Status.processing) : noTerminal l :=
  (sae_fold_processing l Status.processing h).1

theorem sae_fold_completed_mem :
    ∀ (l : List WEvent) (st : Status),
      l.foldl
        (fun st e =>
          match e with
          | WEvent.complete => Status.completed
          | WEvent.fail _ => Status.failed
          | _ => st) st = Status.completed →
      WEvent.complete ∈ l ∨ st = Status.completed := by
  intro l
  induction l with
  | nil => intro st h; exact Or.inr h
  | cons e rest ih =>
    intro st h
    cases e
    case complete => exact Or.inl (List.mem_cons_self _ _)
    case fail m =>
      rcases ih _ h with hm | hs
      · exact Or.inl (List.mem_cons_of_mem _ hm)
      · exact absurd hs (by simp)
    all_goals
      rcases ih _ h with hm | hs
    all_goals
      first
        | exact Or.inl (List.mem_cons_of_mem _ hm)
        | exact Or.inr hs

theorem sAE_completed_mem {l : List WEvent}
    (h : statusAfterEvents l = Status.completed) : WEvent.complete ∈ l := by
  rcases sae_fold_completed_mem l Status.processing h with hm | hs
  · exact hm
  · exact absurd hs (by simp)

theorem sae_fold_failed_mem :
    ∀ (l : List WEvent) (st : Status),
      l.foldl
        (fun st e =>
          match e with
          | WEvent.complete => Status.completed
          | WEvent.fail _ => Status.failed
          | _ => st) st = Status.failed →
      (∃ m, WEvent.fail m ∈ l) ∨ st = Status.failed := by
  intro l
  induction l with
  | nil => intro st h; exact Or.inr h
  | cons e rest ih =>
    intro st h
    cases e
    case fail m => exact Or.inl ⟨m, List.mem_cons_self _ _⟩
    case complete =>
      rcases ih _ h with ⟨m, hm⟩ | hs
      · exact Or.inl ⟨m, List.mem_cons_of_mem _ hm⟩
      · exact absurd hs (by simp)
    all_goals
      rcases ih _ h with ⟨m, hm⟩ | hs
    all_goals
      first
        | exact Or.inl ⟨m, List.mem_cons_of_mem _ hm⟩
        | exact Or.inr hs

theorem sAE_failed_mem {l : List WEvent}
    (h : statusAfterEvents l = Status.failed) : ∃ m, WEvent.fail m ∈ l := by
  rcases sae_fold_failed_mem l Status.processing h with hm | hs
  · exact hm
  · exact absurd hs (by simp)

/-- The status change of one event on a record: unchanged, or a terminal
write. -/
theorem applyRec_status_cases (now : Nat) (e : WEvent) (r : TaskRec) :
    (applyRec now e r).status = r.status ∨
    (applyRec now e r).status = Status.completed ∨
    (applyRec now e r).status = Status.failed := by
  cases e <;> simp [applyRec]
  case setDuration => cases r.startTime <;> simp

theorem applyRec_status_eq (now : Nat) (e : WEvent) (r : TaskRec)
    (h : isTerminal e = false) : (applyRec now e r).status = r.status := by
  cases e <;> simp [isTerminal] at h ⊢ <;> simp [applyRec]
  case setDuration => cases r.startTime <;> simp

/-! ### What a worker can still do once its task is terminal -/

theorem closing_split {done evts pre closing : List WEvent}
    (h : done ++ evts = pre ++ closing) (hpre : noTerminal pre)
    (ht : ∃ t ∈ done, isTerminal t = true) :
    ∃ c, done = pre ++ c ∧ closing = c ++ evts ∧
      ∃ t ∈ c, isTerminal t = true := by
  obtain ⟨t, htd, htt⟩ := ht
  rcases List.append_eq_append_iff.mp h with ⟨a, ha1, _⟩ | ⟨c, hc1, hc2⟩
  · exfalso
    have : t ∈ pre := ha1 ▸ List.mem_append.mpr (Or.inl htd)
    exact absurd (hpre t this) (by simp [htt])
  · refine ⟨c, hc1, hc2, t, ?_, htt⟩
    rcases List.mem_append.mp (hc1 ▸ htd) with hp | hp
    · exact absurd (hpre t hp) (by simp [htt])
    · exact hp

/-- After the success path's completed-update the only remaining statement
is `in_process = False`. -/
theorem evts_after_complete_closing {done evts pre : List WEvent}
    (h : done ++ evts =
      pre ++ [WEvent.cleanTemp, WEvent.complete, WEvent.clearBusy])
    (hpre : noTerminal pre) (ht : ∃ t ∈ done, isTerminal t = true) :
    evts = [WEvent.clearBusy] ∨ evts = [] := by
  obtain ⟨c, _, hcl, t, htc, htt⟩ := closing_split h hpre ht
  rcases c with _ | ⟨x1, _ | ⟨x2, _ | ⟨x3, c4⟩⟩⟩ <;>
    simp only [List.cons_append, List.nil_append, List.cons.injEq] at hcl
  · simp at htc
  · obtain ⟨hx1, -⟩ := hcl
    simp only [List.mem_singleton] at htc
    subst htc
    rw [← hx1] at htt
    simp [isTerminal] at htt
  · left
    exact hcl.2.2.symm
  · right
    obtain ⟨-, -, -, h4⟩ := hcl
    exact (List.append_eq_nil.mp h4.symm).2

/-- After the failure handler's failed-update the only remaining statements
are the duration write, `clean_temp` and `in_process = False`, in order. -/
theorem evts_after_fail_closing {done evts pre : List WEvent} {m : String}
    (h : done ++ evts =
      pre ++ [WEvent.fail m, WEvent.setDuration, WEvent.cleanTemp,
              WEvent.clearBusy])
    (hpre : noTerminal pre) (ht : ∃ t ∈ done, isTerminal t = true) :
    evts = [WEvent.setDuration, WEvent.cleanTemp, WEvent.clearBusy] ∨
    evts = [WEvent.cleanTemp, WEvent.clearBusy] ∨
    evts = [WEvent.clearBusy] ∨ evts = [] := by
  obtain ⟨c, _, hcl, t, htc, htt⟩ := closing_split h hpre ht
  rcases c with _ | ⟨x1, _ | ⟨x2, _ | ⟨x3, _ | ⟨x4, c5⟩⟩⟩⟩ <;>
    simp only [List.cons_append, List.nil_append, List.cons.injEq] at hcl
  · simp at htc
  · left
    exact hcl.2.symm
  · right; left
    exact hcl.2.2.symm
  · right; right; left
    exact hcl.2.2.2.symm
  · right; right; right
    obtain ⟨-, -, -, -, h5⟩ := hcl
    exact (List.append_eq_nil.mp h5.symm).2

/-- A worker whose task is already completed can only still clear the busy
flag. -/
theorem worker_events_after_complete {env : PipelineEnv}
    {done evts : List WEvent}
    (hsplit : done ++ evts = pipelineEvents env)
    (hc : WEvent.complete ∈ done) :
    evts = [WEvent.clearBusy] ∨ evts = [] := by
  rcases pipelineEvents_shape env with ⟨_, heq⟩ | ⟨m, _, heq⟩
  · exact evts_after_complete_closing (hsplit.trans heq)
      (tryBody_noTerminal env) ⟨_, hc, rfl⟩
  · exfalso
    have hmem : WEvent.complete ∈ pipelineEvents env :=
      hsplit ▸ List.mem_append.mpr (Or.inl hc)
    rw [heq] at hmem
    rcases List.mem_append.mp hmem with hp | hp
    · exact absurd (tryBody_noTerminal env _ hp) (by simp [isTerminal])
    · simp at hp

/-- A worker whose task is already failed can only still write the
duration, clean the temp directory and clear the busy flag. -/
theorem worker_events_after_fail {env : PipelineEnv}
    {done evts : List WEvent} {m : String}
    (hsplit : done ++ evts = pipelineEvents env)
    (hf : WEvent.fail m ∈ done) :
    evts = [WEvent.setDuration, WEvent.cleanTemp, WEvent.clearBusy] ∨
    evts = [WEvent.cleanTemp, WEvent.clearBusy] ∨
    evts = [WEvent.clearBusy] ∨ evts = [] := by
  rcases pipelineEvents_shape env with ⟨_, heq⟩ | ⟨m₂, _, heq⟩
  · exfalso
    have hmem : WEvent.fail m ∈ pipelineEvents env :=
      hsplit ▸ List.mem_append.mpr (Or.inl hf)
    rw [heq] at hmem
    rcases List.mem_append.mp hmem with hp | hp
    · exact absurd (tryBody_noTerminal env _ hp) (by simp [isTerminal])
    · simp at hp
  · exact evts_after_fail_closing (hsplit.trans heq)
      (tryBody_noTerminal env) ⟨_, hf, rfl⟩

/-- Events that mutate no task record. -/
theorem applyRec_id (now : Nat) (e : WEvent) (r : TaskRec)
    (h : e = WEvent.setBusy ∨ e = WEvent.clearBusy ∨ e = WEvent.loadTarget ∨
         e = WEvent.createTemp ∨ e = WEvent.extractFrames ∨
         (∃ i b, e = WEvent.writeFrame i b) ∨ e = WEvent.detectFps ∨
         e = WEvent.createVideo ∨ e = WEvent.restoreAudio ∨
         e = WEvent.cleanTemp) :
    applyRec now e r = r := by
  rcases h with rfl | rfl | rfl | rfl | rfl | ⟨i, b, rfl⟩ | rfl | rfl | rfl | rfl <;>
    rfl

theorem updateTask_id (ts : List (Nat × TaskRec)) (tid : Nat)
    (f : TaskRec → TaskRec) (hf : ∀ r, f r = r) : updateTask ts tid f = ts := by
  induction ts with
  | nil => rfl
  | cons p rest ih =>
    rcases p with ⟨k, r⟩
    rw [updateTask_cons, ih, hf r]
    split_ifs <;> rfl

/-! ### The reachability invariant -/

/-- The conjunction of facts that hold in every reachable state: task ids
are below the fresh counter, the queue holds exactly the queued tasks (in
particular pop + mark-processing is atomic), worker threads are uniquely
bound to non-queued tasks, a worker's remaining trace is the tail of its
pipeline run, the status of a worker's task is determined by the trace
prefix it has consumed, and queued/completed records carry progress
0/1000. -/
structure Inv (s : SysState) : Prop where
  tasksLt : ∀ p ∈ s.tasks, p.1 < s.nextId
  queueSub : ∀ e ∈ s.queue, ∃ r, lookupTask s.tasks e.taskId = some r ∧
    r.status = Status.queued
  queuedIn : ∀ tid r, lookupTask s.tasks tid = some r →
    r.status = Status.queued → ∃ e, e ∈ s.queue ∧ e.taskId = tid
  queueNodup : (s.queue.map QEntry.taskId).Nodup
  workersNodup : (s.workers.map Worker.taskId).Nodup
  workerSplit : ∀ w ∈ s.workers, w.done ++ w.events = pipelineEvents w.env
  workerStatus : ∀ w ∈ s.workers, ∃ r, lookupTask s.tasks w.taskId = some r ∧
    r.status = statusAfterEvents w.done
  queuedP0 : ∀ tid r, lookupTask s.tasks tid = some r →
    r.status = Status.queued → r.progress = 0
  completedP : ∀ tid r, lookupTask s.tasks tid = some r →
    r.status = Status.completed → r.progress = 1000

theorem lookup_fresh {ts : List (Nat × TaskRec)} {n : Nat}
    (h : ∀ p ∈ ts, p.1 < n) : lookupTask ts n = none := by
  cases hl : lookupTask ts n with
  | none => rfl
  | some r =>
    have := h _ (lookupTask_mem hl)
    omega

theorem workers_distinct {pre post : List Worker} {w : Worker}
    (h : ((pre ++ w :: post).map Worker.taskId).Nodup) :
    (∀ w₂ ∈ pre, w₂.taskId ≠ w.taskId) ∧
    (∀ w₂ ∈ post, w₂.taskId ≠ w.taskId) := by
  rw [List.map_append, List.map_cons, List.nodup_append] at h
  obtain ⟨h1, h2, h3⟩ := h
  constructor
  · intro w₂ hm heq
    exact h3 (List.mem_map_of_mem _ hm) (by simp [heq])
  · intro w₂ hm heq
    exact (List.nodup_cons.mp h2).1 (heq ▸ List.mem_map_of_mem _ hm)

theorem inv_init : Inv initState := by
  constructor <;> simp [initState, lookupTask]

theorem inv_submit {s : SysState} (hInv : Inv s) (src out tgt : String) :
    Inv (submitEffect s src out tgt) := by
  have hfresh : lookupTask s.tasks s.nextId = none := lookup_fresh hInv.tasksLt
  have hlook : ∀ tid, lookupTask (submitEffect s src out tgt).tasks tid =
      match lookupTask s.tasks tid with
      | some r => some r
      | none =>
        if s.nextId = tid then some (initRec src out tgt s.now) else none := by
    intro tid
    simp only [submitEffect]
    rw [lookupTask_append]
    cases lookupTask s.tasks tid <;> rfl
  constructor
  · intro p hp
    simp only [submitEffect] at hp
    rcases List.mem_append.mp hp with hp | hp
    · have := hInv.tasksLt p hp
      simp only [submitEffect]
      omega
    · simp at hp
      subst hp
      simp [submitEffect]
  · intro e he
    simp only [submitEffect] at he
    rcases List.mem_append.mp he with he | he
    · obtain ⟨r, hr, hst⟩ := hInv.queueSub e he
      refine ⟨r, ?_, hst⟩
      rw [hlook, hr]
    · simp at he
      subst he
      refine ⟨initRec src out tgt s.now, ?_, rfl⟩
      rw [hlook]
      simp [hfresh]
  · intro tid r hr hst
    rw [hlook] at hr
    cases hold : lookupTask s.tasks tid with
    | some r₂ =>
      rw [hold] at hr
      simp only at hr
      have hr2 : r₂ = r := by simpa using hr
      have hst2 : r₂.status = Status.queued := by rw [hr2]; exact hst
      obtain ⟨e, he, hetid⟩ := hInv.queuedIn tid r₂ hold hst2
      exact ⟨e, by simp [submitEffect, he], hetid⟩
    | none =>
      rw [hold] at hr
      simp only at hr
      split_ifs at hr with hn
      refine ⟨⟨s.nextId, src, out, tgt⟩, by simp [submitEffect], hn⟩
  · simp only [submitEffect, List.map_append, List.map_cons, List.map_nil]
    rw [List.nodup_append]
    refine ⟨hInv.queueNodup, by simp, ?_⟩
    intro a ha hb
    simp at hb
    obtain ⟨e, he, hetid⟩ := List.mem_map.mp ha
    obtain ⟨r, hr, _⟩ := hInv.queueSub e he
    have := hInv.tasksLt _ (lookupTask_mem hr)
    omega
  · exact hInv.workersNodup
  · exact hInv.workerSplit
  · intro w hw
    obtain ⟨r, hr, hst⟩ := hInv.workerStatus w hw
    refine ⟨r, ?_, hst⟩
    rw [hlook, hr]
  · intro tid r hr hst
    rw [hlook] at hr
    cases hold : lookupTask s.tasks tid with
    | some r₂ =>
      rw [hold] at hr
      have hr2 : r₂ = r := by simpa using hr
      rw [← hr2]
      exact hInv.queuedP0 tid r₂ hold (by rw [hr2]; exact hst)
    | none =>
      rw [hold] at hr
      simp only at hr
      split_ifs at hr with hn
      have hr2 : initRec src out tgt s.now = r := by simpa using hr
      rw [← hr2]
      rfl
  · intro tid r hr hst
    rw [hlook] at hr
    cases hold : lookupTask s.tasks tid with
    | some r₂ =>
      rw [hold] at hr
      have hr2 : r₂ = r := by simpa using hr
      rw [← hr2]
      exact hInv.completedP tid r₂ hold (by rw [hr2]; exact hst)
    | none =>
      rw [hold] at hr
      simp only at hr
      split_ifs at hr with hn
      have hr2 : initRec src out tgt s.now = r := by simpa using hr
      rw [← hr2] at hst
      simp [initRec] at hst

theorem inv_dispatch {s : SysState} (hInv : Inv s) (e : QEntry)
    (rest : List QEntry) (env : PipelineEnv) (hq : s.queue = e :: rest) :
    Inv (dispatchEffect s e rest env) := by
  obtain ⟨r₀, hr₀, hst₀⟩ := hInv.queueSub e (hq ▸ List.mem_cons_self e rest)
  have hwne : ∀ w ∈ s.workers, w.taskId ≠ e.taskId := by
    intro w hw heq
    obtain ⟨rw, hrw, hsw⟩ := hInv.workerStatus w hw
    rw [heq, hr₀] at hrw
    have : r₀ = rw := by simpa using hrw
    rw [← this] at hsw
    rw [hst₀] at hsw
    exact sAE_ne_queued w.done hsw.symm
  have hqids : e.taskId ∉ rest.map QEntry.taskId := by
    have h := hInv.queueNodup
    rw [hq, List.map_cons] at h
    exact (List.nodup_cons.mp h).1
  have hlook2 : ∀ tid, lookupTask (dispatchEffect s e rest env).tasks tid =
      if tid = e.taskId then
        (lookupTask s.tasks tid).map fun r =>
          { r with status := Status.processing, startTime := some s.now }
      else lookupTask s.tasks tid := by
    intro tid
    simp only [dispatchEffect]
    exact lookupTask_update s.tasks e.taskId tid _
  constructor
  · intro p hp
    simp only [dispatchEffect] at hp ⊢
    obtain ⟨q, hq2, hpq⟩ := updateTask_mem_key hp
    rw [hpq]
    exact hInv.tasksLt q hq2
  · intro e₂ he₂
    simp only [dispatchEffect] at he₂
    have hmem : e₂ ∈ s.queue := hq ▸ List.mem_cons_of_mem e he₂
    obtain ⟨r₂, hr₂, hst₂⟩ := hInv.queueSub e₂ hmem
    have hne : e₂.taskId ≠ e.taskId := by
      intro heq
      exact hqids (heq ▸ List.mem_map_of_mem _ he₂)
    refine ⟨r₂, ?_, hst₂⟩
    rw [hlook2, if_neg hne, hr₂]
  · intro tid r hr hst
    rw [hlook2] at hr
    split_ifs at hr with htid
    · rw [htid, hr₀] at hr
      have hfr : ({ r₀ with
          status := Status.processing,
          startTime := some s.now } : TaskRec) = r := by simpa using hr
      rw [← hfr] at hst
      simp at hst
    · obtain ⟨e₂, he₂, hetid⟩ := hInv.queuedIn tid r hr hst
      rw [hq] at he₂
      rcases List.mem_cons.mp he₂ with rfl | he₂
      · exact absurd hetid.symm htid
      · exact ⟨e₂, by simpa [dispatchEffect] using he₂, hetid⟩
  · have h := hInv.queueNodup
    rw [hq, List.map_cons] at h
    simpa [dispatchEffect] using (List.nodup_cons.mp h).2
  · simp only [dispatchEffect, List.map_append, List.map_cons, List.map_nil]
    rw [List.nodup_append]
    refine ⟨hInv.workersNodup, by simp, ?_⟩
    intro a ha hb
    simp at hb
    obtain ⟨w, hw, hwid⟩ := List.mem_map.mp ha
    exact hwne w hw (hwid.trans hb)
  · intro w hw
    simp only [dispatchEffect] at hw
    rcases List.mem_append.mp hw with hw | hw
    · exact hInv.workerSplit w hw
    · simp at hw
      subst hw
      rfl
  · intro w hw
    simp only [dispatchEffect] at hw
    rcases List.mem_append.mp hw with hw | hw
    · obtain ⟨rw, hrw, hsw⟩ := hInv.workerStatus w hw
      refine ⟨rw, ?_, hsw⟩
      rw [hlook2, if_neg (hwne w hw), hrw]
    · simp at hw
      subst hw
      refine ⟨{ r₀ with
        status := Status.processing,
        startTime := some s.now }, ?_, rfl⟩
      rw [hlook2, if_pos rfl, hr₀]
      rfl
  · intro tid r hr hst
    rw [hlook2] at hr
    split_ifs at hr with htid
    · rw [htid, hr₀] at hr
      have hfr : ({ r₀ with
          status := Status.processing,
          startTime := some s.now } : TaskRec) = r := by simpa using hr
      rw [← hfr] at hst
      simp at hst
    · exact hInv.queuedP0 tid r hr hst
  · intro tid r hr hst
    rw [hlook2] at hr
    split_ifs at hr with htid
    · rw [htid, hr₀] at hr
      have hfr : ({ r₀ with
          status := Status.processing,
          startTime := some s.now } : TaskRec) = r := by simpa using hr
      rw [← hfr] at hst
      simp at hst
    · exact hInv.completedP tid r hr hst

theorem inv_worker {s : SysState} (hInv : Inv s) (pre post : List Worker)
    (w : Worker) (ev : WEvent) (tl : List WEvent)
    (hw : s.workers = pre ++ w :: post) (he : w.events = ev :: tl) :
    Inv (workerEffect s pre post w ev tl) := by
  have hwmem : w ∈ s.workers :=
    hw ▸ List.mem_append.mpr (Or.inr (List.mem_cons_self _ _))
  obtain ⟨rw, hrw, hsw⟩ := hInv.workerStatus w hwmem
  have hsplit := hInv.workerSplit w hwmem
  have hsp : w.done ++ (ev :: tl) = pipelineEvents w.env := by
    rw [← he]
    exact hsplit
  have hnodup := hInv.workersNodup
  rw [hw] at hnodup
  obtain ⟨hpre_ne, hpost_ne⟩ := workers_distinct hnodup
  have hlook2 : ∀ tid, lookupTask (workerEffect s pre post w ev tl).tasks tid =
      if tid = w.taskId then
        (lookupTask s.tasks tid).map (applyRec s.now ev)
      else lookupTask s.tasks tid := by
    intro tid
    simp only [workerEffect]
    exact lookupTask_update s.tasks w.taskId tid _
  have hnq : rw.status ≠ Status.queued := by
    rw [hsw]
    exact sAE_ne_queued w.done
  have hnew_nq : (applyRec s.now ev rw).status ≠ Status.queued := by
    rcases applyRec_status_cases s.now ev rw with h | h | h <;> rw [h] <;>
      simp [hnq]
  have hqne : ∀ e₂ ∈ s.queue, e₂.taskId ≠ w.taskId := by
    intro e₂ he₂ heq
    obtain ⟨r₂, hr₂, hst₂⟩ := hInv.queueSub e₂ he₂
    rw [heq, hrw] at hr₂
    have : rw = r₂ := by simpa using hr₂
    rw [← this] at hst₂
    exact hnq hst₂
  constructor
  · intro p hp
    simp only [workerEffect] at hp ⊢
    obtain ⟨q, hq2, hpq⟩ := updateTask_mem_key hp
    rw [hpq]
    exact hInv.tasksLt q hq2
  · intro e₂ he₂
    simp only [workerEffect] at he₂
    obtain ⟨r₂, hr₂, hst₂⟩ := hInv.queueSub e₂ he₂
    refine ⟨r₂, ?_, hst₂⟩
    rw [hlook2, if_neg (hqne e₂ he₂), hr₂]
  · intro tid r hr hst
    rw [hlook2] at hr
    split_ifs at hr with htid
    · rw [htid, hrw] at hr
      have hfr : applyRec s.now ev rw = r := by simpa using hr
      rw [← hfr] at hst
      exact absurd hst hnew_nq
    · obtain ⟨e₂, he₂, hetid⟩ := hInv.queuedIn tid r hr hst
      exact ⟨e₂, by simpa [workerEffect] using he₂, hetid⟩
  · simpa [workerEffect] using hInv.queueNodup
  · simp only [workerEffect]
    by_cases htl : tl.isEmpty = true
    · rw [if_pos htl, List.map_append]
      refine List.Nodup.sublist ?_ hnodup
      rw [List.map_append, List.map_cons]
      exact List.Sublist.append_left (List.sublist_cons_self _ _) _
    · rw [if_neg htl]
      have : ((pre ++ { w with done := w.done ++ [ev], events := tl } ::
          post).map Worker.taskId) =
          ((pre ++ w :: post).map Worker.taskId) := by
        simp
      rw [this]
      exact hnodup
  · intro w₂ hw₂
    simp only [workerEffect] at hw₂
    rcases List.mem_append.mp hw₂ with h | h
    · exact hInv.workerSplit w₂ (hw ▸ List.mem_append.mpr (Or.inl h))
    · by_cases htl : tl.isEmpty = true
      · rw [if_pos htl] at h
        exact hInv.workerSplit w₂
          (hw ▸ List.mem_append.mpr (Or.inr (List.mem_cons_of_mem _ h)))
      · rw [if_neg htl] at h
        rcases List.mem_cons.mp h with rfl | h
        · show (w.done ++ [ev]) ++ tl = pipelineEvents w.env
          rw [List.append_assoc]
          exact hsp
        · exact hInv.workerSplit w₂
            (hw ▸ List.mem_append.mpr (Or.inr (List.mem_cons_of_mem _ h)))
  · intro w₂ hw₂
    simp only [workerEffect] at hw₂
    rcases List.mem_append.mp hw₂ with h | h
    · obtain ⟨r₂, hr₂, hs₂⟩ := hInv.workerStatus w₂
        (hw ▸ List.mem_append.mpr (Or.inl h))
      refine ⟨r₂, ?_, hs₂⟩
      rw [hlook2, if_neg (hpre_ne w₂ h), hr₂]
    · by_cases htl : tl.isEmpty = true
      · rw [if_pos htl] at h
        obtain ⟨r₂, hr₂, hs₂⟩ := hInv.workerStatus w₂
          (hw ▸ List.mem_append.mpr (Or.inr (List.mem_cons_of_mem _ h)))
        refine ⟨r₂, ?_, hs₂⟩
        rw [hlook2, if_neg (hpost_ne w₂ h), hr₂]
      · rw [if_neg htl] at h
        rcases List.mem_cons.mp h with rfl | h
        · refine ⟨applyRec s.now ev rw, ?_, ?_⟩
          · show lookupTask _ w.taskId = _
            rw [hlook2, if_pos rfl, hrw]
            rfl
          · show (applyRec s.now ev rw).status =
              statusAfterEvents (w.done ++ [ev])
            rw [sAE_append_single]
            cases ev <;>
              first
                | exact hsw
                | (cases hst2 : rw.startTime <;> simp [applyRec, hst2] <;>
                   exact hsw)
        · obtain ⟨r₂, hr₂, hs₂⟩ := hInv.workerStatus w₂
            (hw ▸ List.mem_append.mpr (Or.inr (List.mem_cons_of_mem _ h)))
          refine ⟨r₂, ?_, hs₂⟩
          rw [hlook2, if_neg (hpost_ne w₂ h), hr₂]
  · intro tid r hr hst
    rw [hlook2] at hr
    split_ifs at hr with htid
    · rw [htid, hrw] at hr
      have hfr : applyRec s.now ev rw = r := by simpa using hr
      rw [← hfr] at hst
      exact absurd hst hnew_nq
    · exact hInv.queuedP0 tid r hr hst
  · intro tid r hr hst
    rw [hlook2] at hr
    split_ifs at hr with htid
    · rw [htid, hrw] at hr
      have hfr : applyRec s.now ev rw = r := by simpa using hr
      rw [← hfr] at hst
      by_cases hterm : isTerminal ev = true
      · cases ev <;> simp [isTerminal] at hterm
        · rw [← hfr]
          simp [applyRec]
        · simp [applyRec] at hst
      · have hterm2 : isTerminal ev = false := by
          revert hterm
          cases isTerminal ev <;> simp
        have hstat := applyRec_status_eq s.now ev rw hterm2
        have hrwc : rw.status = Status.completed := by
          rw [← hstat]
          exact hst
        have hc : WEvent.complete ∈ w.done :=
          sAE_completed_mem (hsw.symm.trans hrwc)
        rcases worker_events_after_complete hsp hc with hsuf | hsuf
        · injection hsuf with hev htl2
          subst hev
          rw [← hfr]
          show rw.progress = 1000
          exact hInv.completedP tid rw (by rw [htid]; exact hrw) hrwc
        · exact absurd hsuf (by simp)
    · exact hInv.completedP tid r hr hst

/-- Every transition preserves the invariant. -/
theorem inv_step {fs : FS} {s : SysState} {ℓ : Label} {s₂ : SysState}
    (hInv : Inv s) (hstep : Step fs s ℓ s₂) : Inv s₂ := by
  cases hstep with
  | submit src out tgt h1 h2 h3 h4 => exact inv_submit hInv src out tgt
  | dispatch e rest env hq hip henv => exact inv_dispatch hInv e rest env hq
  | worker pre post w ev tl hw he => exact inv_worker hInv pre post w ev tl hw he

/-- Every reachable state satisfies the invariant. -/
theorem inv_reachable {fs : FS} {s : SysState} (h : Reachable fs s) : Inv s := by
  induction h with
  | init => exact inv_init
  | step hr hs ih => exact inv_step ih hs

/-! ### Queue-rank lemmas for the status endpoint -/

theorem queueRank_split :
    ∀ (q₁ : List QEntry) (e : QEntry) (q₂ : List QEntry) (tid n : Nat),
      e.taskId = tid → (∀ e₂ ∈ q₁, e₂.taskId ≠ tid) →
      queueRank (q₁ ++ e :: q₂) tid n = some (n + q₁.length + 1) := by
  intro q₁
  induction q₁ with
  | nil =>
    intro e q₂ tid n he _
    simp [queueRank, he]
  | cons a rest ih =>
    intro e q₂ tid n he hne
    have ha : a.taskId ≠ tid := hne a (List.mem_cons_self _ _)
    rw [List.cons_append, queueRank, if_neg ha,
      ih e q₂ tid (n + 1) he fun e₂ h => hne e₂ (List.mem_cons_of_mem _ h)]
    simp only [List.length_cons]
    congr 1
    omega

theorem first_occurrence :
    ∀ (q : List QEntry) (tid : Nat), (∃ e ∈ q, e.taskId = tid) →
      ∃ q₁ e q₂, q = q₁ ++ e :: q₂ ∧ e.taskId = tid ∧
        ∀ e₂ ∈ q₁, e₂.taskId ≠ tid := by
  intro q tid
  induction q with
  | nil =>
    rintro ⟨e, he, -⟩
    simp at he
  | cons a rest ih =>
    rintro ⟨e, he, hetid⟩
    by_cases ha : a.taskId = tid
    · exact ⟨[], a, rest, rfl, ha, by simp⟩
    · have hm : ∃ e ∈ rest, e.taskId = tid := by
        rcases List.mem_cons.mp he with rfl | hm
        · exact absurd hetid ha
        · exact ⟨e, hm, hetid⟩
      obtain ⟨q₁, e₂, q₂, heq, h1, h2⟩ := ih hm
      refine ⟨a :: q₁, e₂, q₂, by rw [heq, List.cons_append], h1, ?_⟩
      intro x hx
      rcases List.mem_cons.mp hx with rfl | hx
      · exact ha
      · exact h2 x hx

/-! ### Claim theorems -/

/-- Claim C5: `POST /process` rejects with a 400 exactly when the source
path does not exist, the source is not a recognised video, the target path
does not exist, or the target has no recognised image extension; a
rejection leaves the whole shared state unchanged and creates no job,
while a submission passing all four checks is accepted. -/
theorem submission_validation (fs : FS) (s : SysState) (src out tgt : String) :
    ((fs.pathExists src = false ∨ fs.isVideo src = false ∨
      fs.pathExists tgt = false ∨ fs.hasImageExtension tgt = false) →
      (∃ msg, (processVideo fs s src out tgt).1 = Except.error ⟨400, msg⟩) ∧
      (processVideo fs s src out tgt).2 = s)
    ∧ (fs.pathExists src = true → fs.isVideo src = true →
       fs.pathExists tgt = true → fs.hasImageExtension tgt = true →
       (processVideo fs s src out tgt).1 =
         Except.ok { taskId := s.nextId, status := "queued",
                     queuePosition := s.queue.length + 1,
                     timestamp := s.now } ∧
       (processVideo fs s src out tgt).2 = submitEffect s src out tgt) := by
  by_cases h1 : fs.pathExists src = true <;>
    by_cases h2 : fs.isVideo src = true <;>
    by_cases h3 : fs.pathExists tgt = true <;>
    by_cases h4 : fs.hasImageExtension tgt = true <;>
    constructor <;>
    intro h <;>
    simp_all [processVideo, submitEffect]

/-- Claim C8: `GET /status/{task_id}` with an id absent from the registry
returns the `404` `"Task not found"` error — a definite error value, never
a crash or an empty success — and leaves the state unchanged. -/
theorem unknown_task_not_found (s : SysState) (tid : Nat)
    (h : lookupTask s.tasks tid = none) :
    getStatus s tid = (Except.error ⟨404, "Task not found"⟩, s) := by
  simp [getStatus, h]

/-- Claim C9: for a known task, `GET /status` leaves the state unchanged
and reports `queue_position` exactly while the status is `"queued"`, as the
1-based rank in the FIFO queue (one more than the number of entries ahead
of it); `POST /process` reports the new job's rank, which is the queue
length after the append — the new job being the last entry. -/
theorem queue_position_fifo (fs : FS) (s : SysState) (tid : Nat)
    (hreach : Reachable fs s) :
    (∀ r, lookupTask s.tasks tid = some r →
      ∃ resp, (getStatus s tid).1 = Except.ok resp ∧ (getStatus s tid).2 = s ∧
        (r.status = Status.queued →
          ∃ q₁ e q₂, s.queue = q₁ ++ e :: q₂ ∧ e.taskId = tid ∧
            (∀ e₂ ∈ q₁, e₂.taskId ≠ tid) ∧
            resp.queuePosition = some (q₁.length + 1)) ∧
        (r.status ≠ Status.queued → resp.queuePosition = none))
    ∧ (∀ src out tgt resp s₂,
        processVideo fs s src out tgt = (Except.ok resp, s₂) →
        resp.queuePosition = s₂.queue.length ∧
        s₂.queue.map QEntry.taskId =
          s.queue.map QEntry.taskId ++ [resp.taskId]) := by
  have hInv := inv_reachable hreach
  constructor
  · intro r hr
    by_cases hq : r.status = Status.queued
    · obtain ⟨e, he, hetid⟩ := hInv.queuedIn tid r hr hq
      obtain ⟨q₁, e₂, q₂, heq, h1, h2⟩ :=
        first_occurrence s.queue tid ⟨e, he, hetid⟩
      have hrank : queueRank s.queue tid 0 = some (q₁.length + 1) := by
        rw [heq, queueRank_split q₁ e₂ q₂ tid 0 h1 h2]
        simp
      refine ⟨{
          status := r.status,
          progress := r.progress,
          message := r.message,
          outputPath := r.outputPath,
          createdAt := r.createdAt,
          startTime := r.startTime,
          duration := r.duration,
          queuePosition := queueRank s.queue tid 0 }, ?_, ?_, ?_, ?_⟩
      · simp [getStatus, hr, hq]
      · simp [getStatus, hr, hq]
      · intro _
        exact ⟨q₁, e₂, q₂, heq, h1, h2, by simp [hrank]⟩
      · intro hnq
        exact absurd hq hnq
    · refine ⟨{
          status := r.status,
          progress := r.progress,
          message := r.message,
          outputPath := r.outputPath,
          createdAt := r.createdAt,
          startTime := r.startTime,
          duration := r.duration,
          queuePosition := none }, ?_, ?_, ?_, ?_⟩
      · simp [getStatus, hr, hq]
      · simp [getStatus, hr, hq]
      · intro hq2
        exact absurd hq2 hq
      · intro _
        rfl
  · intro src out tgt resp s₂ hp
    by_cases h1 : fs.pathExists src = true <;>
      by_cases h2 : fs.isVideo src = true <;>
      by_cases h3 : fs.pathExists tgt = true <;>
      by_cases h4 : fs.hasImageExtension tgt = true <;>
      simp_all [processVideo]
    obtain ⟨hresp, hs₂⟩ := hp
    rw [← hresp, ← hs₂]
    simp [submitEffect]

/-- Claim C2: progress is 0 while a job is queued and 1000 tenths (100%)
once completed, in every reachable state; the progress values a worker run
writes are non-decreasing; a successful run ends completed at 100%; a
failing run ends failed, and the handler leaves progress at the last value
the loop wrote (the prior value when the loop wrote none). -/
theorem progress_invariant (fs : FS) (s : SysState) (tid : Nat)
    (env : PipelineEnv) (r : TaskRec) (hreach : Reachable fs s) :
    (∀ r₂, lookupTask s.tasks tid = some r₂ → r₂.status = Status.queued →
      r₂.progress = 0)
    ∧ (∀ r₂, lookupTask s.tasks tid = some r₂ →
      r₂.status = Status.completed → r₂.progress = 1000)
    ∧ List.Chain' (· ≤ ·) (progressWrites (pipelineEvents env))
    ∧ ((tryBody env).2 = none → (finalRec env r).status = Status.completed ∧
       (finalRec env r).progress = 1000)
    ∧ (∀ m, (tryBody env).2 = some m →
       (finalRec env r).status = Status.failed)
    ∧ (finalRec env r).progress =
        ((progressWrites (pipelineEvents env)).getLast?).getD r.progress := by
  have hInv := inv_reachable hreach
  refine ⟨fun r₂ h1 h2 => hInv.queuedP0 tid r₂ h1 h2,
    fun r₂ h1 h2 => hInv.completedP tid r₂ h1 h2,
    chain_pw env, ?_, ?_, runRec_progress (pipelineEvents env) r⟩
  · intro h
    obtain ⟨h1, h2, _⟩ := finalRec_success env r h
    exact ⟨h1, h2⟩
  · intro m h
    exact (finalRec_failed env r m h).1

/-- With a readable target image in which the detector finds no face, the
try block raises `ValueError("No faces detected in target image")`. -/
theorem tryBody_noFace (env : PipelineEnv) (h1 : env.targetImg.isSome = true)
    (h2 : env.targetFaces = []) :
    (tryBody env).2 = some "No faces detected in target image" := by
  rcases env with ⟨tfp, timg, tfaces, eerr, frames, fpserr, cverr, raerr⟩
  simp only at h1 h2
  subst h2
  cases timg with
  | none => simp at h1
  | some img => simp [tryBody]

/-- With target loading succeeding and frame extraction returning zero
frames, the try block raises
`ValueError("No frames extracted from video")`. -/
theorem tryBody_emptySource (env : PipelineEnv)
    (h1 : env.targetImg.isSome = true) (h2 : env.targetFaces ≠ [])
    (h3 : env.extractErr = none) (h4 : env.frames = []) :
    (tryBody env).2 = some "No frames extracted from video" := by
  rcases env with ⟨tfp, timg, tfaces, eerr, frames, fpserr, cverr, raerr⟩
  simp only at h1 h2 h3 h4
  subst h3
  subst h4
  cases timg with
  | none => simp at h1
  | some img =>
    cases tfaces with
    | nil => exact absurd rfl h2
    | cons a rest => simp [tryBody]

/-- Claim C6: every failed job's record carries the message
`"Error: " ++ detail`, whose fixed detail per cause is the stable
classification; a target with zero detected faces fails with kind
`NoFaceDetected`, a source with zero extracted frames fails with kind
`EmptySource`. -/
theorem failed_error_classification (env : PipelineEnv) (r : TaskRec) :
    (∀ m, (tryBody env).2 = some m →
      (finalRec env r).status = Status.failed ∧
      (finalRec env r).message = "Error: " ++ m)
    ∧ (env.targetImg.isSome = true → env.targetFaces = [] →
       (finalRec env r).status = Status.failed ∧
       errorKindOfMessage (finalRec env r).message = ErrKind.noFaceDetected)
    ∧ (env.targetImg.isSome = true → env.targetFaces ≠ [] →
       env.extractErr = none → env.frames = [] →
       (finalRec env r).status = Status.failed ∧
       errorKindOfMessage (finalRec env r).message = ErrKind.emptySource) := by
  refine ⟨?_, ?_, ?_⟩
  · intro m h
    obtain ⟨h1, h2, _⟩ := finalRec_failed env r m h
    exact ⟨h1, h2⟩
  · intro h1 h2
    have hm := tryBody_noFace env h1 h2
    obtain ⟨hs, hmsg, _⟩ := finalRec_failed env r _ hm
    refine ⟨hs, ?_⟩
    rw [hmsg]
    rfl
  · intro h1 h2 h3 h4
    have hm := tryBody_emptySource env h1 h2 h3 h4
    obtain ⟨hs, hmsg, _⟩ := finalRec_failed env r _ hm
    refine ⟨hs, ?_⟩
    rw [hmsg]
    rfl

/-- Claim C7 (amended): the temporary workspace is released on every exit
path before the worker finishes — on success `clean_temp` runs and only
then the completed record is written, while on any stage fault the handler
first records the failed state and then runs the same `clean_temp` — and a
fault aborts all remaining stages (nothing but the handler's statements
follow it). -/
theorem cleanup_every_path (env : PipelineEnv) :
    WEvent.cleanTemp ∈ pipelineEvents env
    ∧ ((tryBody env).2 = none →
       pipelineEvents env = (tryBody env).1 ++
         [WEvent.cleanTemp, WEvent.complete, WEvent.clearBusy])
    ∧ (∀ m, (tryBody env).2 = some m →
       pipelineEvents env = (tryBody env).1 ++
         [WEvent.fail ("Error: " ++ m), WEvent.setDuration, WEvent.cleanTemp,
          WEvent.clearBusy]) := by
  refine ⟨?_, ?_, ?_⟩
  · rcases pipelineEvents_shape env with ⟨_, heq⟩ | ⟨m, _, heq⟩ <;>
      rw [heq] <;> simp
  · intro h
    rcases pipelineEvents_shape env with ⟨_, heq⟩ | ⟨m, hsome, _⟩
    · exact heq
    · rw [h] at hsome
      exact absurd hsome (by simp)
  · intro m h
    rcases pipelineEvents_shape env with ⟨hnone, _⟩ | ⟨m₂, hsome, heq⟩
    · rw [h] at hnone
      exact absurd hnone (by simp)
    · rw [h] at hsome
      have : m₂ = m := by simpa using hsome.symm
      subst this
      exact heq

/-- `writeFrame` events come only from the frame loop. -/
theorem tryBody_writeFrame_mem {env : PipelineEnv} {j : Nat} {b : Bool}
    (h : WEvent.writeFrame j b ∈ (tryBody env).1) :
    WEvent.writeFrame j b ∈ frameLoop env.frames.length 0 env.frames := by
  rcases env with ⟨tfp, timg, tfaces, eerr, frames, fpserr, cverr, raerr⟩
  simp only [tryBody] at h ⊢
  repeat' split at h
  all_goals simp at h
  all_goals exact h

theorem frameLoop_writeFrame_mem {t : Nat} :
    ∀ (l : List FrameData) (i j : Nat) (b : Bool),
      WEvent.writeFrame j b ∈ frameLoop t i l →
      ∃ k f, l.get? k = some f ∧ f.decoded.isSome = true ∧ j = i + k := by
  intro l
  induction l with
  | nil => intro i j b h; simp [frameLoop] at h
  | cons f rest ih =>
    intro i j b h
    rcases hfd : f.decoded with _ | v <;> rw [frameLoop, hfd] at h
    · obtain ⟨k, g, hg, hgd, hk⟩ := ih (i + 1) j b (by simpa using h)
      exact ⟨k + 1, g, by simpa using hg, hgd, by omega⟩
    · simp only [List.cons_append, List.nil_append, List.mem_cons] at h
      rcases h with h | h | h
      · injection h with h1 h2
        exact ⟨0, f, by simp, by simp [hfd], by omega⟩
      · exact absurd h (by simp)
      · obtain ⟨k, g, hg, hgd, hk⟩ := ih (i + 1) j b h
        exact ⟨k + 1, g, by simpa using hg, hgd, by omega⟩

/-- Claim C10: a frame whose `cv2.imread` fails is silently skipped: no
write-back and no face detection or swap happens for that index, its index
contributes no progress write, and a run that otherwise succeeds still
completes with progress 100. -/
theorem undecodable_frame_skipped (env : PipelineEnv) (r : TaskRec) (i : Nat)
    (f : FrameData) (hf : env.frames.get? i = some f)
    (hdec : f.decoded = none) (hok : (tryBody env).2 = none) :
    (∀ b, WEvent.writeFrame i b ∉ pipelineEvents env)
    ∧ i ∉ decodedIdxs 0 env.frames
    ∧ progressWrites (pipelineEvents env) =
        ((decodedIdxs 0 env.frames).map (progressTenths env.frames.length)) ++
          [1000]
    ∧ (finalRec env r).status = Status.completed
    ∧ (finalRec env r).progress = 1000 := by
  have hnotdec : i ∉ decodedIdxs 0 env.frames := by
    intro hmem
    obtain ⟨g, hg, hgd⟩ := decodedIdxs_mem_decoded env.frames 0 i hmem
    rw [Nat.sub_zero] at hg
    rw [hf] at hg
    have : f = g := by simpa using hg
    rw [← this] at hgd
    rw [hdec] at hgd
    simp at hgd
  refine ⟨?_, hnotdec, ?_, ?_, ?_⟩
  · intro b hmem
    rcases pipelineEvents_shape env with ⟨_, heq⟩ | ⟨m, hsome, _⟩
    · rw [heq] at hmem
      rcases List.mem_append.mp hmem with hm | hm
      · obtain ⟨k, g, hg, hgd, hk⟩ :=
          frameLoop_writeFrame_mem env.frames 0 i b (tryBody_writeFrame_mem hm)
        rw [Nat.zero_add] at hk
        rw [← hk, hf] at hg
        have : f = g := by simpa using hg
        rw [← this] at hgd
        rw [hdec] at hgd
        simp at hgd
      · simp at hm
    · rw [hok] at hsome
      exact absurd hsome (by simp)
  · rcases pipelineEvents_shape env with ⟨_, heq⟩ | ⟨m, hsome, _⟩
    · rw [heq, pw_append, pw_tryBody_success env hok]
      rfl
    · rw [hok] at hsome
      exact absurd hsome (by simp)
  · exact (finalRec_success env r hok).1
  · exact (finalRec_success env r hok).2.1

/-! ### Stage order (C4) -/

/-- The named pipeline stages, as markers extracted from a trace. -/
inductive StageTag where
  | loadTarget
  | prepare
  | extract
  | transform
  | reassemble
  | restoreAudio
deriving DecidableEq, Repr

/-- The sequence of stage actions a trace performs, in order:
target loading, workspace allocation (`create_temp`), frame extraction,
per-frame write-backs, video reassembly (`create_video`), audio
restoration. -/
def stageSeq (evts : List WEvent) : List StageTag :=
  evts.filterMap fun e =>
    match e with
    | WEvent.loadTarget => some StageTag.loadTarget
    | WEvent.createTemp => some StageTag.prepare
    | WEvent.extractFrames => some StageTag.extract
    | WEvent.writeFrame _ _ => some StageTag.transform
    | WEvent.createVideo => some StageTag.reassemble
    | WEvent.restoreAudio => some StageTag.restoreAudio
    | _ => none

theorem ss_append (l₁ l₂ : List WEvent) :
    stageSeq (l₁ ++ l₂) = stageSeq l₁ ++ stageSeq l₂ :=
  List.filterMap_append l₁ l₂ _

theorem ss_nil : stageSeq [] = [] := rfl

theorem ss_cons (e : WEvent) (l : List WEvent) :
    stageSeq (e :: l) =
      (match e with
       | WEvent.loadTarget => [StageTag.loadTarget]
       | WEvent.createTemp => [StageTag.prepare]
       | WEvent.extractFrames => [StageTag.extract]
       | WEvent.writeFrame _ _ => [StageTag.transform]
       | WEvent.createVideo => [StageTag.reassemble]
       | WEvent.restoreAudio => [StageTag.restoreAudio]
       | _ => []) ++ stageSeq l := by
  cases e <;> rfl

theorem frameLoop_ss (t : Nat) : ∀ (l : List FrameData) (i : Nat),
    stageSeq (frameLoop t i l) =
      List.replicate (decodedIdxs i l).length StageTag.transform := by
  intro l
  induction l with
  | nil => intro i; rfl
  | cons f rest ih =>
    intro i
    rcases hfd : f.decoded with _ | v <;>
      rw [frameLoop, hfd, decodedIdxs] <;>
      simp [hfd, ss_append, ss_cons, ss_nil, ih, List.replicate_succ]

/-- Claim C4 (amended): on a successful run the stage actions happen in
exactly this order: load target face first, then workspace allocation,
then frame extraction, then the per-frame transforms, then reassembly,
then audio restoration — and the run finishes with `clean_temp` and the
completed-update.  (The source loads the target face before allocating
the workspace, the reverse of the spec's stage 1/stage 2 order.) -/
theorem stage_order_success (env : PipelineEnv)
    (hok : (tryBody env).2 = none) :
    stageSeq (pipelineEvents env) =
      [StageTag.loadTarget, StageTag.prepare, StageTag.extract] ++
      List.replicate (decodedIdxs 0 env.frames).length StageTag.transform ++
      [StageTag.reassemble, StageTag.restoreAudio]
    ∧ pipelineEvents env = (tryBody env).1 ++
        [WEvent.cleanTemp, WEvent.complete, WEvent.clearBusy] := by
  rcases pipelineEvents_shape env with ⟨_, heq⟩ | ⟨m, hsome, _⟩
  · refine ⟨?_, heq⟩
    rw [heq, ss_append]
    have hclose : stageSeq
        [WEvent.cleanTemp, WEvent.complete, WEvent.clearBusy] = [] := rfl
    rw [hclose, List.append_nil]
    rcases env with ⟨tfp, timg, tfaces, eerr, frames, fpserr, cverr, raerr⟩
    simp only [tryBody] at hok ⊢
    repeat' split at hok
    all_goals simp_all
    all_goals
      simp [ss_append, ss_cons, ss_nil, frameLoop_ss]
  · rw [hok] at hsome
    exact absurd hsome (by simp)

/-! ### The status state machine (C1) -/

/-- Claim C1 (amended): across any transition from a reachable state, a
task id appears only as a fresh `"queued"` record created by a submission;
`"queued"` changes only to `"processing"`, and only through the
dispatcher's step for that id; `"processing"` changes only to
`"completed"`/`"failed"`, and only through a step of that task's worker; a
`"completed"` record is never changed again; a `"failed"` record changes
at most once more — the failure handler's immediately following duration
write, by the same worker — and is otherwise untouched. -/
theorem status_transition_discipline (fs : FS) {s s₂ : SysState} {ℓ : Label}
    (hreach : Reachable fs s) (hstep : Step fs s ℓ s₂) (tid : Nat) :
    (statusOf s tid = none → statusOf s₂ tid = none ∨
      (statusOf s₂ tid = some Status.queued ∧
        ∃ src out tgt, ℓ = Label.submit src out tgt))
    ∧ (statusOf s tid = some Status.queued →
       statusOf s₂ tid = some Status.queued ∨
       (statusOf s₂ tid = some Status.processing ∧
        ∃ env, ℓ = Label.dispatch tid env))
    ∧ (statusOf s tid = some Status.processing →
       statusOf s₂ tid = some Status.processing ∨
       ((statusOf s₂ tid = some Status.completed ∨
         statusOf s₂ tid = some Status.failed) ∧ ℓ = Label.workerStep tid))
    ∧ (statusOf s tid = some Status.completed →
       lookupTask s₂.tasks tid = lookupTask s.tasks tid)
    ∧ (statusOf s tid = some Status.failed →
       lookupTask s₂.tasks tid = lookupTask s.tasks tid ∨
       (∃ r d, lookupTask s.tasks tid = some r ∧
         lookupTask s₂.tasks tid = some { r with duration := some d } ∧
         ℓ = Label.workerStep tid)) := by
  have hInv := inv_reachable hreach
  cases hstep with
  | submit src out tgt h1 h2 h3 h4 =>
    have hlook : ∀ tid₂,
        lookupTask (submitEffect s src out tgt).tasks tid₂ =
        match lookupTask s.tasks tid₂ with
        | some r => some r
        | none =>
          if s.nextId = tid₂ then some (initRec src out tgt s.now)
          else none := by
      intro tid₂
      simp only [submitEffect]
      rw [lookupTask_append]
      cases lookupTask s.tasks tid₂ <;> rfl
    refine ⟨?_, ?_, ?_, ?_, ?_⟩
    · intro h
      simp only [statusOf] at h ⊢
      rw [hlook]
      cases hl : lookupTask s.tasks tid with
      | some r =>
        rw [hl] at h
        simp at h
      | none =>
        simp only
        split_ifs with hn
        · right
          exact ⟨by simp [initRec], src, out, tgt, rfl⟩
        · left
          rfl
    · intro h
      simp only [statusOf] at h ⊢
      rw [hlook]
      cases hl : lookupTask s.tasks tid with
      | some r =>
        rw [hl] at h
        exact Or.inl h
      | none =>
        rw [hl] at h
        simp at h
    · intro h
      simp only [statusOf] at h ⊢
      rw [hlook]
      cases hl : lookupTask s.tasks tid with
      | some r =>
        rw [hl] at h
        exact Or.inl h
      | none =>
        rw [hl] at h
        simp at h
    · intro h
      simp only [statusOf] at h
      rw [hlook]
      cases hl : lookupTask s.tasks tid with
      | some r => rfl
      | none =>
        rw [hl] at h
        simp at h
    · intro h
      simp only [statusOf] at h
      rw [hlook]
      cases hl : lookupTask s.tasks tid with
      | some r => exact Or.inl rfl
      | none =>
        rw [hl] at h
        simp at h
  | dispatch e rest env hq hip henv =>
    obtain ⟨r₀, hr₀, hst₀⟩ := hInv.queueSub e (hq ▸ List.mem_cons_self e rest)
    have hlook : ∀ tid₂,
        lookupTask (dispatchEffect s e rest env).tasks tid₂ =
        if tid₂ = e.taskId then
          (lookupTask s.tasks tid₂).map fun r =>
            { r with status := Status.processing, startTime := some s.now }
        else lookupTask s.tasks tid₂ := by
      intro tid₂
      simp only [dispatchEffect]
      exact lookupTask_update s.tasks e.taskId tid₂ _
    refine ⟨?_, ?_, ?_, ?_, ?_⟩
    · intro h
      simp only [statusOf] at h ⊢
      rw [hlook]
      cases hl : lookupTask s.tasks tid with
      | some r => rw [hl] at h; simp at h
      | none =>
        left
        split_ifs <;> simp
    · intro h
      simp only [statusOf] at h ⊢
      rw [hlook]
      split_ifs with htid
      · right
        subst htid
        rw [hr₀]
        exact ⟨rfl, env, rfl⟩
      · exact Or.inl h
    · intro h
      simp only [statusOf] at h ⊢
      rw [hlook]
      split_ifs with htid
      · subst htid
        rw [hr₀] at h
        simp at h
        rw [hst₀] at h
        simp at h
      · exact Or.inl h
    · intro h
      simp only [statusOf] at h
      rw [hlook]
      split_ifs with htid
      · subst htid
        rw [hr₀] at h
        simp at h
        rw [hst₀] at h
        simp at h
      · rfl
    · intro h
      simp only [statusOf] at h
      rw [hlook]
      split_ifs with htid
      · subst htid
        rw [hr₀] at h
        simp at h
        rw [hst₀] at h
        simp at h
      · exact Or.inl rfl
  | worker pre post w ev tl hw he =>
    have hwmem : w ∈ s.workers :=
      hw ▸ List.mem_append.mpr (Or.inr (List.mem_cons_self _ _))
    obtain ⟨rw, hrw, hsw⟩ := hInv.workerStatus w hwmem
    have hsp : w.done ++ (ev :: tl) = pipelineEvents w.env := by
      rw [← he]
      exact hInv.workerSplit w hwmem
    have hlook : ∀ tid₂,
        lookupTask (workerEffect s pre post w ev tl).tasks tid₂ =
        if tid₂ = w.taskId then
          (lookupTask s.tasks tid₂).map (applyRec s.now ev)
        else lookupTask s.tasks tid₂ := by
      intro tid₂
      simp only [workerEffect]
      exact lookupTask_update s.tasks w.taskId tid₂ _
    refine ⟨?_, ?_, ?_, ?_, ?_⟩
    · intro h
      simp only [statusOf] at h ⊢
      rw [hlook]
      cases hl : lookupTask s.tasks tid with
      | some r => rw [hl] at h; simp at h
      | none =>
        left
        split_ifs <;> simp
    · intro h
      simp only [statusOf] at h ⊢
      rw [hlook]
      split_ifs with htid
      · subst htid
        rw [hrw] at h
        simp at h
        rw [hsw] at h
        exact absurd h (sAE_ne_queued w.done)
      · exact Or.inl h
    · intro h
      simp only [statusOf] at h ⊢
      rw [hlook]
      split_ifs with htid
      · subst htid
        rw [hrw] at h ⊢
        by_cases hterm : isTerminal ev = true
        · right
          constructor
          · cases ev <;> simp [isTerminal] at hterm <;> simp [applyRec]
          · rfl
        · left
          have hterm2 : isTerminal ev = false := by
            revert hterm
            cases isTerminal ev <;> simp
          have hs2 := applyRec_status_eq s.now ev rw hterm2
          show some ((applyRec s.now ev rw).status) = some Status.processing
          rw [hs2]
          exact h
      · exact Or.inl h
    · intro h
      simp only [statusOf] at h
      rw [hlook]
      split_ifs with htid
      · subst htid
        rw [hrw] at h ⊢
        have hc : rw.status = Status.completed := by simpa using h
        have hmem : WEvent.complete ∈ w.done :=
          sAE_completed_mem (hsw.symm.trans hc)
        rcases worker_events_after_complete hsp hmem with hsuf | hsuf
        · injection hsuf with hev htl2
          subst hev
          rfl
        · exact absurd hsuf (by simp)
      · rfl
    · intro h
      simp only [statusOf] at h
      rw [hlook]
      split_ifs with htid
      · subst htid
        rw [hrw] at h ⊢
        have hc : rw.status = Status.failed := by simpa using h
        obtain ⟨m, hmem⟩ := sAE_failed_mem (hsw.symm.trans hc)
        rcases worker_events_after_fail hsp hmem with hsuf | hsuf | hsuf | hsuf
        · injection hsuf with hev htl2
          subst hev
          cases hstt : rw.startTime with
          | none =>
            left
            simp [applyRec, hstt]
          | some t =>
            right
            exact ⟨rw, s.now - t, rfl, by simp [applyRec, hstt], rfl⟩
        · injection hsuf with hev htl2
          subst hev
          exact Or.inl rfl
        · injection hsuf with hev htl2
          subst hev
          exact Or.inl rfl
        · exact absurd hsuf (by simp)
      · exact Or.inl rfl

/-- Claim C3 (amended): popping a job from the intake queue and marking it
`"processing"` is one atomic step — in every reachable state a job id is
in the queue exactly when its status is `"queued"`, so no status query can
observe a job both out of the queue and not yet processing — and the
dispatcher only dispatches while the `in_process` flag is clear, the
dispatched job going from `"queued"` to `"processing"` and out of the
queue in the same step.  (The flag itself is set later, by the worker
thread, which is why two jobs can nevertheless be processing at once:
see the counterexample.) -/
theorem atomic_dispatch (fs : FS) (s : SysState) (tid : Nat)
    (hreach : Reachable fs s) :
    ((∃ e, e ∈ s.queue ∧ e.taskId = tid) ↔
      statusOf s tid = some Status.queued)
    ∧ (∀ env s₂, Step fs s (Label.dispatch tid env) s₂ →
        s.inProcess = false ∧ statusOf s tid = some Status.queued ∧
        statusOf s₂ tid = some Status.processing ∧
        ∀ e ∈ s₂.queue, e.taskId ≠ tid) := by
  have hInv := inv_reachable hreach
  constructor
  · constructor
    · rintro ⟨e, he, hetid⟩
      obtain ⟨r, hr, hst⟩ := hInv.queueSub e he
      rw [hetid] at hr
      simp [statusOf, hr, hst]
    · intro h
      simp only [statusOf] at h
      cases hl : lookupTask s.tasks tid with
      | none => rw [hl] at h; simp at h
      | some r =>
        rw [hl] at h
        have hst : r.status = Status.queued := by simpa using h
        exact hInv.queuedIn tid r hl hst
  · intro env s₂ hstep
    cases hstep with
    | dispatch e rest env2 hq hip henv =>
      obtain ⟨r₀, hr₀, hst₀⟩ :=
        hInv.queueSub e (hq ▸ List.mem_cons_self e rest)
      have hqids : e.taskId ∉ rest.map QEntry.taskId := by
        have hnd := hInv.queueNodup
        rw [hq, List.map_cons] at hnd
        exact (List.nodup_cons.mp hnd).1
      refine ⟨hip, by simp [statusOf, hr₀, hst₀], ?_, ?_⟩
      · simp only [statusOf, dispatchEffect]
        rw [lookupTask_update, if_pos rfl, hr₀]
        rfl
      · intro e₂ he₂ heq
        simp only [dispatchEffect] at he₂
        exact hqids (heq ▸ List.mem_map_of_mem _ he₂)

/-! ### Concrete scenarios -/

/-- A filesystem on which every validation check passes. -/
def fsAll : FS :=
  { pathExists := fun _ => true, isVideo := fun _ => true,
    hasImageExtension := fun _ => true }

/-- A filesystem on which every validation check fails. -/
def fsNone : FS :=
  { pathExists := fun _ => false, isVideo := fun _ => false,
    hasImageExtension := fun _ => false }

/-- A run whose target image is readable but contains no detectable face. -/
def envNoFace : PipelineEnv :=
  { targetFacePath := "face.jpg", targetImg := some 0, targetFaces := [],
    extractErr := none, frames := [], fpsErr := none, createVideoErr := none,
    restoreAudioErr := none }

/-- A fully successful run over a single decodable one-face frame. -/
def envOkOneFrame : PipelineEnv :=
  { targetFacePath := "face.jpg", targetImg := some 0, targetFaces := [0],
    extractErr := none, frames := [{ decoded := some 1, faces := [0] }],
    fpsErr := none, createVideoErr := none, restoreAudioErr := none }

/-- A successful run whose first frame fails to decode. -/
def envSkip : PipelineEnv :=
  { targetFacePath := "face.jpg", targetImg := some 0, targetFaces := [0],
    extractErr := none,
    frames := [{ decoded := none, faces := [] },
               { decoded := some 1, faces := [0] }],
    fpsErr := none, createVideoErr := none, restoreAudioErr := none }

def rec0 : TaskRec := initRec "a.mp4" "o1.mp4" "face.jpg" 0

def eA : QEntry := ⟨0, "a.mp4", "o1.mp4", "face.jpg"⟩

def eB : QEntry := ⟨1, "b.mp4", "o2.mp4", "face.jpg"⟩

/-- Two back-to-back submissions. -/
def exS1 : SysState := submitEffect initState "a.mp4" "o1.mp4" "face.jpg"

def exS2 : SysState := submitEffect exS1 "b.mp4" "o2.mp4" "face.jpg"

/-- The dispatcher pops job 0; its worker thread has not yet run, so
`in_process` is still false. -/
def exS3 : SysState := dispatchEffect exS2 eA [eB] envNoFace

/-- A second dispatcher iteration pops job 1 as well. -/
def exS4 : SysState := dispatchEffect exS3 eB [] envNoFace

theorem reach_exS2 : Reachable fsAll exS2 :=
  Reachable.step (Reachable.step Reachable.init
    (Step.submit initState "a.mp4" "o1.mp4" "face.jpg" rfl rfl rfl rfl))
    (Step.submit exS1 "b.mp4" "o2.mp4" "face.jpg" rfl rfl rfl rfl)

theorem reach_exS4 : Reachable fsAll exS4 :=
  Reachable.step (Reachable.step reach_exS2
    (Step.dispatch exS2 eA [eB] envNoFace rfl rfl rfl))
    (Step.dispatch exS3 eB [] envNoFace rfl rfl rfl)

/-- The trace of `process_video_task` on `envNoFace`, written out. -/
def evNF : List WEvent :=
  [WEvent.setBusy, WEvent.setMessage "Initializing processing",
   WEvent.loadTarget, WEvent.fail "Error: No faces detected in target image",
   WEvent.setDuration, WEvent.cleanTemp, WEvent.clearBusy]

/-- The `envNoFace` worker after performing its first `k` statements. -/
def wNF (k : Nat) : Worker := ⟨0, envNoFace, evNF.take k, evNF.drop k⟩

def exT1 : SysState := submitEffect initState "a.mp4" "o1.mp4" "face.jpg"

def exT2 : SysState := dispatchEffect exT1 eA [] envNoFace

def exT3 : SysState :=
  workerEffect exT2 [] [] (wNF 0) WEvent.setBusy (evNF.drop 1)

def exT4 : SysState :=
  workerEffect exT3 [] [] (wNF 1)
    (WEvent.setMessage "Initializing processing") (evNF.drop 2)

def exT5 : SysState :=
  workerEffect exT4 [] [] (wNF 2) WEvent.loadTarget (evNF.drop 3)

/-- The state just after the failure handler's failed-update: task 0 is
terminally `"failed"`, its `duration` not yet written. -/
def exT6 : SysState :=
  workerEffect exT5 [] [] (wNF 3)
    (WEvent.fail "Error: No faces detected in target image") (evNF.drop 4)

/-- One more worker statement: the handler's duration write. -/
def exT7 : SysState :=
  workerEffect exT6 [] [] (wNF 4) WEvent.setDuration (evNF.drop 5)

theorem reach_exT1 : Reachable fsAll exT1 :=
  Reachable.step Reachable.init
    (Step.submit initState "a.mp4" "o1.mp4" "face.jpg" rfl rfl rfl rfl)

theorem step_exT1_dispatch : Step fsAll exT1 (Label.dispatch 0 envNoFace) exT2 :=
  Step.dispatch exT1 eA [] envNoFace rfl rfl rfl

theorem reach_exT6 : Reachable fsAll exT6 :=
  Reachable.step (Reachable.step (Reachable.step (Reachable.step
    (Reachable.step reach_exT1 step_exT1_dispatch)
    (Step.worker exT2 [] [] (wNF 0) WEvent.setBusy (evNF.drop 1) rfl rfl))
    (Step.worker exT3 [] [] (wNF 1)
      (WEvent.setMessage "Initializing processing") (evNF.drop 2) rfl rfl))
    (Step.worker exT4 [] [] (wNF 2) WEvent.loadTarget (evNF.drop 3) rfl rfl))
    (Step.worker exT5 [] [] (wNF 3)
      (WEvent.fail "Error: No faces detected in target image") (evNF.drop 4)
      rfl rfl)

theorem step_exT6_duration : Step fsAll exT6 (Label.workerStep 0) exT7 :=
  Step.worker exT6 [] [] (wNF 4) WEvent.setDuration (evNF.drop 5) rfl rfl

/-! ### Counterexamples -/

/-- Counterexample to C1 as stated: in a reachable state task 0 is already
terminally `"failed"`, yet the next statement of the same worker — the
failure handler's duration write, which follows the failed-update — changes
the record again (its `duration` field appears). -/
theorem terminal_record_counterexample :
    Reachable fsAll exT6 ∧ Step fsAll exT6 (Label.workerStep 0) exT7 ∧
    statusOf exT6 0 = some Status.failed ∧
    statusOf exT7 0 = some Status.failed ∧
    lookupTask exT7.tasks 0 ≠ lookupTask exT6.tasks 0 :=
  ⟨reach_exT6, step_exT6_duration, rfl, rfl, by decide⟩

/-- Counterexample to C3 as stated: the busy flag is set by the worker
thread, not by the dispatcher at pop time, so two dispatcher iterations
that both run before the first worker's first statement leave jobs 0 and 1
simultaneously `"processing"` (the flag still clear). -/
theorem two_processing_counterexample :
    Reachable fsAll exS4 ∧ statusOf exS4 0 = some Status.processing ∧
    statusOf exS4 1 = some Status.processing ∧ exS4.inProcess = false :=
  ⟨reach_exS4, rfl, rfl, rfl⟩

/-- Counterexample to C4 as stated: on a successful run the load-target
stage action occurs strictly before the workspace-allocation (`prepare`)
action, the reverse of the claimed stage 1 / stage 2 order. -/
theorem stage_order_counterexample :
    StageTag.loadTarget ∈ stageSeq (pipelineEvents envOkOneFrame) ∧
    StageTag.prepare ∈ stageSeq (pipelineEvents envOkOneFrame) ∧
    (stageSeq (pipelineEvents envOkOneFrame)).indexOf StageTag.loadTarget <
      (stageSeq (pipelineEvents envOkOneFrame)).indexOf StageTag.prepare := by
  decide

/-- Counterexample to C7 as stated: on the failure path the terminal
failed-update strictly precedes the `clean_temp` cleanup, so the cleanup
does not happen before the terminal state is recorded. -/
theorem cleanup_order_counterexample :
    WEvent.fail "Error: No faces detected in target image" ∈
      pipelineEvents envNoFace ∧
    WEvent.cleanTemp ∈ pipelineEvents envNoFace ∧
    (pipelineEvents envNoFace).indexOf
        (WEvent.fail "Error: No faces detected in target image") <
      (pipelineEvents envNoFace).indexOf WEvent.cleanTemp := by
  decide

/-! ### Witnesses -/

/-- Witness for C5 at a concrete rejected submission. -/
theorem submission_validation_witness :
    (fsNone.pathExists "a.mp4" = false ∨ fsNone.isVideo "a.mp4" = false ∨
      fsNone.pathExists "face.jpg" = false ∨
      fsNone.hasImageExtension "face.jpg" = false) ∧
    (∃ msg, (processVideo fsNone initState "a.mp4" "o1.mp4" "face.jpg").1 =
        Except.error ⟨400, msg⟩) ∧
    (processVideo fsNone initState "a.mp4" "o1.mp4" "face.jpg").2 =
      initState :=
  ⟨Or.inl rfl,
   (submission_validation fsNone initState "a.mp4" "o1.mp4" "face.jpg").1
     (Or.inl rfl)⟩

/-- Witness for C8 at a concrete unknown id. -/
theorem unknown_task_not_found_witness :
    lookupTask initState.tasks 7 = none ∧
    getStatus initState 7 = (Except.error ⟨404, "Task not found"⟩, initState) :=
  ⟨rfl, unknown_task_not_found initState 7 rfl⟩

/-- Witness for C9 at a reachable two-job state, querying the second job. -/
theorem queue_position_fifo_witness :
    Reachable fsAll exS2 ∧
    lookupTask exS2.tasks 1 = some (initRec "b.mp4" "o2.mp4" "face.jpg" 1) ∧
    (∃ resp, (getStatus exS2 1).1 = Except.ok resp ∧
      (getStatus exS2 1).2 = exS2 ∧
      ((initRec "b.mp4" "o2.mp4" "face.jpg" 1).status = Status.queued →
        ∃ q₁ e q₂, exS2.queue = q₁ ++ e :: q₂ ∧ e.taskId = 1 ∧
          (∀ e₂ ∈ q₁, e₂.taskId ≠ 1) ∧
          resp.queuePosition = some (q₁.length + 1)) ∧
      ((initRec "b.mp4" "o2.mp4" "face.jpg" 1).status ≠ Status.queued →
        resp.queuePosition = none)) :=
  ⟨reach_exS2, rfl, (queue_position_fifo fsAll exS2 1 reach_exS2).1 _ rfl⟩

/-- Witness for C2 at a reachable state and a one-frame successful run. -/
theorem progress_invariant_witness :
    Reachable fsAll exS2 ∧ (tryBody envOkOneFrame).2 = none ∧
    List.Chain' (· ≤ ·) (progressWrites (pipelineEvents envOkOneFrame)) ∧
    (finalRec envOkOneFrame rec0).status = Status.completed ∧
    (finalRec envOkOneFrame rec0).progress = 1000 ∧
    (finalRec envOkOneFrame rec0).progress =
      ((progressWrites (pipelineEvents envOkOneFrame)).getLast?).getD
        rec0.progress :=
  ⟨reach_exS2, rfl,
   (progress_invariant fsAll exS2 0 envOkOneFrame rec0 reach_exS2).2.2.1,
   ((progress_invariant fsAll exS2 0 envOkOneFrame rec0
       reach_exS2).2.2.2.1 rfl).1,
   ((progress_invariant fsAll exS2 0 envOkOneFrame rec0
       reach_exS2).2.2.2.1 rfl).2,
   (progress_invariant fsAll exS2 0 envOkOneFrame rec0 reach_exS2).2.2.2.2.2⟩

/-- Witness for C6 at the no-face run. -/
theorem failed_error_classification_witness :
    envNoFace.targetImg.isSome = true ∧ envNoFace.targetFaces = [] ∧
    (finalRec envNoFace rec0).status = Status.failed ∧
    errorKindOfMessage (finalRec envNoFace rec0).message =
      ErrKind.noFaceDetected :=
  ⟨rfl, rfl, ((failed_error_classification envNoFace rec0).2.1 rfl rfl).1,
   ((failed_error_classification envNoFace rec0).2.1 rfl rfl).2⟩

/-- Witness for C7 (amended) at the no-face run. -/
theorem cleanup_every_path_witness :
    WEvent.cleanTemp ∈ pipelineEvents envNoFace ∧
    (tryBody envNoFace).2 = some "No faces detected in target image" ∧
    pipelineEvents envNoFace = (tryBody envNoFace).1 ++
      [WEvent.fail "Error: No faces detected in target image",
       WEvent.setDuration, WEvent.cleanTemp, WEvent.clearBusy] :=
  ⟨(cleanup_every_path envNoFace).1, rfl,
   (cleanup_every_path envNoFace).2.2 "No faces detected in target image" rfl⟩

/-- Witness for C4 (amended) at the one-frame successful run. -/
theorem stage_order_success_witness :
    (tryBody envOkOneFrame).2 = none ∧
    stageSeq (pipelineEvents envOkOneFrame) =
      [StageTag.loadTarget, StageTag.prepare, StageTag.extract] ++
      List.replicate (decodedIdxs 0 envOkOneFrame.frames).length
        StageTag.transform ++
      [StageTag.reassemble, StageTag.restoreAudio] :=
  ⟨rfl, (stage_order_success envOkOneFrame rfl).1⟩

/-- Witness for C10 at a run whose first frame fails to decode. -/
theorem undecodable_frame_skipped_witness :
    envSkip.frames.get? 0 = some { decoded := none, faces := [] } ∧
    ({ decoded := none, faces := [] } : FrameData).decoded = none ∧
    (tryBody envSkip).2 = none ∧
    (∀ b, WEvent.writeFrame 0 b ∉ pipelineEvents envSkip) ∧
    (finalRec envSkip rec0).status = Status.completed ∧
    (finalRec envSkip rec0).progress = 1000 :=
  ⟨rfl, rfl, rfl,
   (undecodable_frame_skipped envSkip rec0 0 { decoded := none, faces := [] }
     rfl rfl rfl).1,
   (undecodable_frame_skipped envSkip rec0 0 { decoded := none, faces := [] }
     rfl rfl rfl).2.2.2.1,
   (undecodable_frame_skipped envSkip rec0 0 { decoded := none, faces := [] }
     rfl rfl rfl).2.2.2.2⟩

/-- Witness for C1 (amended) at a concrete dispatch transition. -/
theorem status_transition_discipline_witness :
    Reachable fsAll exT1 ∧ Step fsAll exT1 (Label.dispatch 0 envNoFace) exT2 ∧
    statusOf exT1 0 = some Status.queued ∧
    (statusOf exT2 0 = some Status.queued ∨
     (statusOf exT2 0 = some Status.processing ∧
      ∃ env, Label.dispatch 0 envNoFace = Label.dispatch 0 env)) :=
  ⟨reach_exT1, step_exT1_dispatch, rfl,
   (status_transition_discipline fsAll reach_exT1 step_exT1_dispatch 0).2.1
     rfl⟩

/-- Witness for C3 (amended) at a reachable two-job state. -/
theorem atomic_dispatch_witness :
    Reachable fsAll exS2 ∧
    ((∃ e, e ∈ exS2.queue ∧ e.taskId = 0) ↔
      statusOf exS2 0 = some Status.queued) :=
  ⟨reach_exS2, (atomic_dispatch fsAll exS2 0 reach_exS2).1⟩

end FaceSwap
